import Mathlib

/-!
# Verification of the BOP Málaga tracking-and-storage subsystem

A shallow embedding of `src/tracker.py` (class `BOPMalagaTracker`) and proofs
about it.  Timestamps are modelled as integers (seconds); the ISO strings the
source stores in records are kept as strings and interpreted through an
explicit parse function `pd` supplied to each operation (the claims under
study assume the recorded dates parse).  Byte sizes are natural numbers and
the megabyte figures (Python float division by `1024 * 1024`) are exact
rationals.  The artifact filesystem is an association list from path to a
`FileInfo` (size plus content digest standing for the SHA-256 of the bytes).
-/

namespace Tracker

/-- One tracked artifact, mirroring the `DownloadRecord` dataclass
(`src/tracker.py` lines 37-55): `checksum` defaults to `None` and
`compressed` to `False`. -/
structure DownloadRecord where
  edicto_id : String
  filename : String
  download_date : String
  file_size : Nat
  file_path : String
  checksum : Option String := none
  compressed : Bool := false
deriving Repr, DecidableEq

/-- The `statistics` sub-dictionary of the tracking data
(`_create_empty_tracking_data`, lines 138-143). -/
structure Statistics where
  total_downloads : Int
  total_size_mb : Rat
  last_cleanup : Option String
  last_compression : Option String
deriving Repr, DecidableEq

/-- The in-memory tracking data (`self.tracking_data`): the dictionary built
by `_create_empty_tracking_data` / `_validate_and_migrate_data`.  The
`downloads` dictionary is an association list in insertion order with unique
keys (a Python dict).  `created` is optional because `_validate_and_migrate_data`
never defaults that key. -/
structure TrackingData where
  version : String
  created : Option String
  last_updated : String
  downloads : List (String × DownloadRecord)
  statistics : Statistics
deriving Repr, DecidableEq

/-- The aggregate returned by `get_storage_stats` (`StorageStats` dataclass,
lines 58-70). -/
structure StorageStats where
  total_files : Nat := 0
  total_size_mb : Rat := 0
  compressed_files : Nat := 0
  compressed_size_mb : Rat := 0
  oldest_file_date : Option String := none
  newest_file_date : Option String := none
deriving Repr, DecidableEq

/-- Size and content digest of one artifact file on disk.  `digest` stands
for the SHA-256 hex digest of the file's bytes, the value
`_calculate_checksum` recomputes by reading the file. -/
structure FileInfo where
  size : Nat
  digest : String
deriving Repr, DecidableEq

/-- The artifact filesystem: paths mapped to file information.  Well-formed
states have no duplicate paths (`fsWF`). -/
abbrev FS := List (String × FileInfo)

/-- No duplicate paths. -/
def fsWF (fs : FS) : Prop := (fs.map Prod.fst).Nodup

/-- `os.path.exists`. -/
def fsExists (fs : FS) (p : String) : Bool := (fs.lookup p).isSome

/-- `os.path.getsize` (the source only calls it on existing paths; a missing
path yields 0 here). -/
def fsSize (fs : FS) (p : String) : Nat :=
  match fs.lookup p with
  | some i => i.size
  | none => 0

/-- File information at a path. -/
def fsInfo (fs : FS) (p : String) : Option FileInfo := fs.lookup p

/-- `os.remove`. -/
def fsRemove (fs : FS) (p : String) : FS := fs.filter (fun e => e.1 ≠ p)

/-- Creating or overwriting a file. -/
def fsWrite (fs : FS) (p : String) (i : FileInfo) : FS :=
  (p, i) :: fs.filter (fun e => e.1 ≠ p)

/-- Total number of bytes on disk. -/
def fsTotal (fs : FS) : Nat := (fs.map (fun e => e.2.size)).sum

/-- Remove a key from the downloads dictionary (`del self.tracking_data['downloads'][k]`). -/
def removeKey (k : String) (l : List (String × DownloadRecord)) :
    List (String × DownloadRecord) := l.filter (fun e => e.1 ≠ k)

/-- Replace the value at a key (`self.tracking_data['downloads'][k] = ...`). -/
def setKey (k : String) (v : DownloadRecord) :
    List (String × DownloadRecord) → List (String × DownloadRecord)
  | [] => []
  | e :: rest => (if e.1 = k then (k, v) else e) :: setKey k v rest

/-- Python truthiness of the optional checksum string: `None` and the empty
string are falsy (`if record.checksum:`). -/
def optTruthy : Option String → Bool
  | none => false
  | some s => s ≠ ""

/-- `s.endswith(suf)`, computed on the character lists so that it evaluates
inside the kernel. -/
def strEndsWith (s suf : String) : Bool :=
  suf.data == s.data.drop (s.data.length - suf.data.length)

/-- Seconds per day, for `timedelta(days=n)` on integer-second timestamps. -/
def secPerDay : Int := 86400

/-! ## Persistence: the tracking file, its backups and the temporary file -/

/-- The raw parsed content of a tracking file: the shape `json.load` hands to
`_validate_and_migrate_data`.  Top-level keys may be absent, and the
`downloads` value may be the current dictionary format or the legacy list of
ids (lines 146-179). -/
inductive RawDownloads where
  | dictFmt (entries : List (String × DownloadRecord))
  | listFmt (ids : List String)
deriving Repr, DecidableEq

/-- A raw store as parsed from disk, before validation and migration. -/
structure RawStore where
  version : Option String
  created : Option String
  last_updated : Option String
  downloads : Option RawDownloads
  statistics : Option Statistics
deriving Repr, DecidableEq

/-- Content of a file in the tracking-file area: a JSON document that parses
to a raw store, or unparseable bytes (`json.JSONDecodeError`). -/
inductive TFile where
  | good (raw : RawStore)
  | bad
deriving Repr, DecidableEq

/-- The persistence-side state: the tracking file, the rotated backups
(oldest first), the corrupt-file backups (distinct name stem, never rotated),
the temporary file, and whether the backups directory exists (it is created
by `_ensure_directories`, which `__init__` only runs after the first load). -/
structure PState where
  tracking : Option TFile
  backups : List TFile
  corruptBackups : List TFile
  tmp : Option TFile
  backupDirExists : Bool
deriving Repr, DecidableEq

/-- Number of entries in a raw downloads value (`len(data['downloads'])`). -/
def RawDownloads.count : RawDownloads → Nat
  | dictFmt entries => entries.length
  | listFmt ids => ids.length

/-- `_validate_and_migrate_data` (lines 146-179): default `version`,
`downloads` and `statistics` when absent, convert the legacy list-of-ids
downloads into full records (no checksum key, so it defaults to `None`), and
unconditionally rewrite `last_updated` to now. -/
def validateAndMigrate (downloadDir nowS : String) (raw : RawStore) : TrackingData :=
  let version := raw.version.getD "1.0"
  let dls := raw.downloads.getD (RawDownloads.dictFmt [])
  let stats := raw.statistics.getD
    { total_downloads := (dls.count : Int), total_size_mb := 0,
      last_cleanup := none, last_compression := none }
  let downloads :=
    match dls with
    | RawDownloads.dictFmt entries => entries
    | RawDownloads.listFmt ids =>
        ids.map (fun id =>
          (id, { edicto_id := id, filename := id ++ ".pdf", download_date := nowS,
                 file_size := 0, file_path := downloadDir ++ "/" ++ id ++ ".pdf",
                 checksum := none, compressed := false }))
  { version := version, created := raw.created, last_updated := nowS,
    downloads := downloads, statistics := stats }

/-- `_create_empty_tracking_data` (lines 131-144). -/
def emptyTrackingData (nowS : String) : TrackingData :=
  { version := "1.0", created := some nowS, last_updated := nowS, downloads := [],
    statistics := { total_downloads := 0, total_size_mb := 0,
                    last_cleanup := none, last_compression := none } }

/-- Serialize the in-memory tracking data (`json.dump`): every field is
present in the emitted document. -/
def toRaw (d : TrackingData) : RawStore :=
  { version := some d.version, created := d.created,
    last_updated := some d.last_updated,
    downloads := some (RawDownloads.dictFmt d.downloads),
    statistics := some d.statistics }

/-- `load_tracking_data` (lines 104-129).  `Except.error` means a Python
exception propagates out of the method: this happens when the corrupt-file
backup copy (`shutil.copy2` into the backups directory) itself fails because
that directory does not exist yet — the surrounding `except` clause is
already executing and does not catch it. -/
def loadTrackingData (downloadDir nowS : String) (st : PState) :
    Except Unit (TrackingData × PState) :=
  match st.tracking with
  | none => Except.ok (emptyTrackingData nowS, st)
  | some (TFile.good raw) => Except.ok (validateAndMigrate downloadDir nowS raw, st)
  | some TFile.bad =>
      if st.backupDirExists then
        Except.ok (emptyTrackingData nowS,
          { st with corruptBackups := st.corruptBackups ++ [TFile.bad] })
      else
        Except.error ()

/-- `_create_backup` plus `_cleanup_old_backups` (lines 207-244): copy the
current tracking file into the backups area and keep only the 10 newest;
every failure inside is caught and logged, so a missing backups directory
just skips the copy. -/
def createBackup (st : PState) : PState :=
  match st.tracking with
  | none => st
  | some cur =>
      if st.backupDirExists then
        let bs := st.backups ++ [cur]
        { st with backups := bs.drop (bs.length - 10) }
      else st

/-- `save_tracking_data` (lines 181-205).  Returns `(ok, td, st)`: `ok` is
false when the exception re-raised by the `except` clause propagates to the
caller.  `wrFail` models a failure while writing the temporary file (a
partial temporary may exist and is removed on the failure path); `rnFail`
models a failure of the atomic `os.rename`. -/
def saveTrackingData (wrFail rnFail : Bool) (nowS : String)
    (td : TrackingData) (st : PState) : Bool × TrackingData × PState :=
  let td1 := { td with last_updated := nowS }
  let st1 := createBackup st
  if wrFail then
    -- the write raised; the handler removes the (possibly partial) temporary
    (false, td1, { st1 with tmp := none })
  else
    let st2 := { st1 with tmp := some (TFile.good (toRaw td1)) }
    if rnFail then
      (false, td1, { st2 with tmp := none })
    else
      (true, td1, { st2 with tracking := some (TFile.good (toRaw td1)), tmp := none })

/-! ## Integrity verification -/

/-- `_calculate_checksum` (lines 301-311): reads the file in chunks and
returns the hex digest of its bytes; any failure (including a vanished file)
is caught and yields the empty string. -/
def calculateChecksum (fs : FS) (p : String) : String :=
  match fs.lookup p with
  | some i => i.digest
  | none => ""

/-- The loop body of `verify_files` (lines 503-520), with the tracking data
and filesystem threaded through each iteration: no branch modifies either. -/
def verifyLoop : List (String × DownloadRecord) → TrackingData → FS →
    List String → List String → TrackingData × FS × List String × List String
  | [], td, fs, missing, corrupted => (td, fs, missing, corrupted)
  | (id, r) :: rest, td, fs, missing, corrupted =>
    if !fsExists fs r.file_path then
      verifyLoop rest td fs (missing ++ [id]) corrupted
    else if optTruthy r.checksum then
      if r.compressed && strEndsWith r.file_path ".gz" then
        verifyLoop rest td fs missing corrupted
      else if calculateChecksum fs r.file_path ≠ r.checksum.getD "" then
        verifyLoop rest td fs missing (corrupted ++ [id])
      else
        verifyLoop rest td fs missing corrupted
    else
      verifyLoop rest td fs missing corrupted

/-- `verify_files` (lines 497-531): returns the tracking data, the
filesystem, and the `(missing_files, corrupted_files)` id lists. -/
def verifyFiles (td : TrackingData) (fs : FS) :
    TrackingData × FS × List String × List String :=
  verifyLoop td.downloads td fs [] []

/-- A record the verifier classifies as missing: its file does not exist. -/
def isMissing (fs : FS) (r : DownloadRecord) : Bool := !fsExists fs r.file_path

/-- A record the verifier classifies as corrupted: its file exists, it has a
truthy checksum, it is not a compressed record with a `.gz` path, and the
recomputed digest differs from the recorded checksum. -/
def isCorrupted (fs : FS) (r : DownloadRecord) : Bool :=
  fsExists fs r.file_path && optTruthy r.checksum &&
    !(r.compressed && strEndsWith r.file_path ".gz") &&
    (calculateChecksum fs r.file_path != r.checksum.getD "")

/-! ## Age-based retention -/

/-- `datetime.fromisoformat(record.download_date.replace('Z', '+00:00')) < cutoff_date`,
through the parse function `pd` (the claims under study assume every stored
date parses, so `pd` is total). -/
def isExpired (pd : String → Int) (cutoff : Int) (r : DownloadRecord) : Bool :=
  pd r.download_date < cutoff

/-- The removal loop of `cleanup_old_files` (lines 362-372) over the
collected `to_remove` list.  `remFail p` models `os.remove(p)` raising an
`OSError`; the surrounding `try` covers the whole loop, so the first failure
aborts the pass (final component `false`), skipping the statistics update.
State: downloads mapping, filesystem, removed count, freed megabytes. -/
def cleanupLoop (remFail : String → Bool) :
    List (String × DownloadRecord) → List (String × DownloadRecord) → FS →
    Nat → Rat → List (String × DownloadRecord) × FS × Nat × Rat × Bool
  | [], dl, fs, cnt, acc => (dl, fs, cnt, acc, true)
  | (id, r) :: rest, dl, fs, cnt, acc =>
    if fsExists fs r.file_path then
      if remFail r.file_path then
        (dl, fs, cnt, acc, false)
      else
        cleanupLoop remFail rest (removeKey id dl)
          (fsRemove fs r.file_path) (cnt + 1)
          (acc + (fsSize fs r.file_path : Rat) / 1048576)
    else
      cleanupLoop remFail rest (removeKey id dl) fs (cnt + 1) acc

/-- `cleanup_old_files` (lines 346-386): collect the records older than
`now - timedelta(days=max_age_days)`, delete their files and tracking
entries, and — only when the loop ran to completion — stamp
`statistics.last_cleanup` and decrement the cached totals.  The persistence
state `ps` is threaded through untouched: the method never writes the
tracking file.  Returns `(data, fs, ps, removed_count, removed_size_mb)`. -/
def cleanupOldFiles (pd : String → Int) (remFail : String → Bool)
    (nowT : Int) (nowS : String) (maxAgeDays : Int)
    (td : TrackingData) (fs : FS) (ps : PState) :
    TrackingData × FS × PState × Nat × Rat :=
  let cutoff := nowT - maxAgeDays * secPerDay
  let toRemove := td.downloads.filter (fun e => isExpired pd cutoff e.2)
  let res := cleanupLoop remFail toRemove td.downloads fs 0 0
  let dl := res.1
  let fs1 := res.2.1
  let cnt := res.2.2.1
  let sz := res.2.2.2.1
  let ok := res.2.2.2.2
  if ok then
    let stats := { td.statistics with
      last_cleanup := some nowS,
      total_downloads := td.statistics.total_downloads - cnt,
      total_size_mb := td.statistics.total_size_mb - sz }
    ({ td with downloads := dl, statistics := stats }, fs1, ps, cnt, sz)
  else
    ({ td with downloads := dl }, fs1, ps, cnt, sz)

/-! ## Storage statistics and capacity-based retention -/

/-- Python's string comparison: lexicographic on code points. -/
def charListLe : List Char → List Char → Bool
  | [], _ => true
  | _ :: _, [] => false
  | a :: as, b :: bs =>
    if a.val < b.val then true
    else if b.val < a.val then false
    else charListLe as bs

/-- `a <= b` on strings, lexicographic on code points as in Python. -/
def strLe (a b : String) : Bool := charListLe a.data b.data

/-- Insert a date string into an ascending list (`download_dates.sort()`,
line 337: ISO strings compare lexicographically). -/
def insertSortedStr (a : String) : List String → List String
  | [] => [a]
  | b :: bs => if strLe b a then b :: insertSortedStr a bs else a :: b :: bs

/-- Stable ascending sort of the collected date strings. -/
def sortStr (l : List String) : List String :=
  l.foldl (fun acc a => insertSortedStr a acc) []

/-- Loop body of `get_storage_stats` (lines 320-333): records whose file
still exists contribute their recorded `file_size` (not the on-disk size) to
the totals, compressed ones also to the compressed totals, and their date to
the date list. -/
def statsStep (fs : FS) (acc : StorageStats × List String)
    (e : String × DownloadRecord) : StorageStats × List String :=
  let r := e.2
  if fsExists fs r.file_path then
    let fileSizeMb : Rat := (r.file_size : Rat) / 1048576
    let s1 := { acc.1 with
      total_files := acc.1.total_files + 1,
      total_size_mb := acc.1.total_size_mb + fileSizeMb }
    let s2 :=
      if r.compressed then
        { s1 with
          compressed_files := s1.compressed_files + 1,
          compressed_size_mb := s1.compressed_size_mb + fileSizeMb }
      else s1
    (s2, acc.2 ++ [r.download_date])
  else acc

/-- `get_storage_stats` (lines 313-344). -/
def getStorageStats (td : TrackingData) (fs : FS) : StorageStats :=
  let acc := td.downloads.foldl (statsStep fs) ({}, [])
  if acc.2 ≠ [] then
    let dates := sortStr acc.2
    { acc.1 with oldest_file_date := dates.head?, newest_file_date := dates.getLast? }
  else acc.1

/-- Insert into the date-ascending candidate list; Python's stable sort by
`x[0]` keeps the original order of equal dates. -/
def insertByDate (a : Int × String × DownloadRecord) :
    List (Int × String × DownloadRecord) → List (Int × String × DownloadRecord)
  | [] => [a]
  | b :: bs => if b.1 ≤ a.1 then b :: insertByDate a bs else a :: b :: bs

/-- `records_with_dates.sort(key=lambda x: x[0])` (line 409). -/
def sortByDate (l : List (Int × String × DownloadRecord)) :
    List (Int × String × DownloadRecord) :=
  l.foldl (fun acc a => insertByDate a acc) []

/-- The eviction loop of `cleanup_by_storage_limit` (lines 412-426): stop as
soon as the running total is within the limit, otherwise delete the file (if
still present, subtracting its on-disk size from the running total) and the
tracking entry.  State: downloads mapping, filesystem, removed count, freed
megabytes. -/
def storageLoop (maxMb : Rat) :
    List (Int × String × DownloadRecord) → List (String × DownloadRecord) → FS →
    Rat → Nat → Rat → List (String × DownloadRecord) × FS × Nat × Rat
  | [], dl, fs, _, cnt, acc => (dl, fs, cnt, acc)
  | (_, id, r) :: rest, dl, fs, current, cnt, acc =>
    if current ≤ maxMb then
      (dl, fs, cnt, acc)
    else if fsExists fs r.file_path then
      let fileSizeMb := (fsSize fs r.file_path : Rat) / 1048576
      storageLoop maxMb rest (removeKey id dl) (fsRemove fs r.file_path)
        (current - fileSizeMb) (cnt + 1) (acc + fileSizeMb)
    else
      storageLoop maxMb rest (removeKey id dl) fs current (cnt + 1) acc

/-- `cleanup_by_storage_limit` (lines 388-439): no-op when the cached-size
scan is within the limit; otherwise evict oldest-first until the running
total is within the limit, then decrement the cached totals (note: no
`last_cleanup` stamp here).  The persistence state is threaded through
untouched: the method never writes the tracking file. -/
def cleanupByStorageLimit (pd : String → Int) (maxStorageMb : Rat)
    (td : TrackingData) (fs : FS) (ps : PState) :
    TrackingData × FS × PState × Nat × Rat :=
  let currentStats := getStorageStats td fs
  if currentStats.total_size_mb ≤ maxStorageMb then
    (td, fs, ps, 0, 0)
  else
    let candidates := (td.downloads.filter (fun e => fsExists fs e.2.file_path)).map
      (fun e => (pd e.2.download_date, e.1, e.2))
    let sorted := sortByDate candidates
    let res := storageLoop maxStorageMb sorted td.downloads fs
      currentStats.total_size_mb 0 0
    let stats := { td.statistics with
      total_downloads := td.statistics.total_downloads - res.2.2.1,
      total_size_mb := td.statistics.total_size_mb - res.2.2.2 }
    ({ td with downloads := res.1, statistics := stats }, res.2.1, ps,
      res.2.2.1, res.2.2.2)

/-! ## Compression engine -/

/-- Filesystem events of the compression pass, in execution order:
`wrote p` when the compressed output at `p` has been produced, `removed p`
when the file at `p` has been deleted. -/
inductive Ev where
  | wrote (p : String)
  | removed (p : String)
deriving Repr, DecidableEq

/-- The compressed output produced by the gzip write for the file at `p`
(the `none` branch is unreachable: the loop checks existence first). -/
def gzOutput (gz : FileInfo → FileInfo) (fs : FS) (p : String) : FileInfo :=
  match fsInfo fs p with
  | some i => gz i
  | none => gz { size := 0, digest := "" }

/-- The loop of `compress_old_files` (lines 448-484).  `gz` maps the
original file's info to the compressed output's info (the gzip stream);
`gzFail p` models the gzip write at `p` raising, which the pass-level
`except` turns into an abort of the whole pass (final component `false`).
Eligible records are compressed to `file_path + ".gz"`; only after the
output's existence check passes is the original removed and the record
updated in place.  State: downloads mapping, filesystem, compressed count,
saved megabytes, event trace. -/

def compressLoop (gz : FileInfo → FileInfo) (gzFail : String → Bool)
    (pd : String → Int) (cutoff : Int) :
    List (String × DownloadRecord) → List (String × DownloadRecord) → FS →
    Nat → Rat → List Ev →
    List (String × DownloadRecord) × FS × Nat × Rat × List Ev × Bool
  | [], dl, fs, cnt, saved, tr => (dl, fs, cnt, saved, tr, true)
  | (id, r) :: rest, dl, fs, cnt, saved, tr =>
    if r.compressed || !(fsExists fs r.file_path) then
      compressLoop gz gzFail pd cutoff rest dl fs cnt saved tr
    else if pd r.download_date < cutoff then
      let compressedPath := r.file_path ++ ".gz"
      let originalSize := fsSize fs r.file_path
      if gzFail compressedPath then
        (dl, fs, cnt, saved, tr, false)
      else
        let outInfo := gzOutput gz fs r.file_path
        let fs1 := fsWrite fs compressedPath outInfo
        let tr1 := tr ++ [Ev.wrote compressedPath]
        if fsExists fs1 compressedPath then
          let compressedSize := fsSize fs1 compressedPath
          let spaceSaved := ((originalSize : Rat) - (compressedSize : Rat)) / 1048576
          let fs2 := fsRemove fs1 r.file_path
          let tr2 := tr1 ++ [Ev.removed r.file_path]
          let newRec := { r with
            file_path := compressedPath,
            compressed := true,
            file_size := compressedSize }
          compressLoop gz gzFail pd cutoff rest (setKey id newRec dl) fs2
            (cnt + 1) (saved + spaceSaved) tr2
        else
          compressLoop gz gzFail pd cutoff rest dl fs1 cnt saved tr1
    else
      compressLoop gz gzFail pd cutoff rest dl fs cnt saved tr

/-- `compress_old_files` (lines 441-495): run the loop over all records;
`statistics.last_compression` is stamped only when the loop completed
without an exception and compressed at least one file.  Returns
`(data, fs, ps, compressed_count, space_saved_mb, trace)`. -/
def compressOldFiles (gz : FileInfo → FileInfo) (gzFail : String → Bool)
    (pd : String → Int) (nowT : Int) (nowS : String) (compressAgeDays : Int)
    (td : TrackingData) (fs : FS) (ps : PState) :
    TrackingData × FS × PState × Nat × Rat × List Ev :=
  let cutoff := nowT - compressAgeDays * secPerDay
  let res := compressLoop gz gzFail pd cutoff td.downloads td.downloads fs 0 0 []
  let dl := res.1
  let fs1 := res.2.1
  let cnt := res.2.2.1
  let saved := res.2.2.2.1
  let tr := res.2.2.2.2.1
  let ok := res.2.2.2.2.2
  if ok && decide (0 < cnt) then
    let stats := { td.statistics with last_compression := some nowS }
    ({ td with downloads := dl, statistics := stats }, fs1, ps, cnt, saved, tr)
  else
    ({ td with downloads := dl }, fs1, ps, cnt, saved, tr)

/-- Safety of a compression trace: whenever a file is removed, the
compressed output for it had already been produced earlier in the trace. -/
def removeSafe (tr : List Ev) : Prop :=
  ∀ p l1 l2, tr = l1 ++ Ev.removed p :: l2 → Ev.wrote (p ++ ".gz") ∈ l1

/-- The equivalence of two downloads mappings asserted by the round-trip
property: same set of ids, and each id maps to records agreeing on
`filename`, `download_date`, `file_size`, `file_path`, `checksum` and
`compressed`. -/
def downloadsEquiv (d1 d2 : List (String × DownloadRecord)) : Prop :=
  (∀ id, (d1.lookup id).isSome ↔ (d2.lookup id).isSome) ∧
  (∀ id r1 r2, d1.lookup id = some r1 → d2.lookup id = some r2 →
    r1.filename = r2.filename ∧ r1.download_date = r2.download_date ∧
    r1.file_size = r2.file_size ∧ r1.file_path = r2.file_path ∧
    r1.checksum = r2.checksum ∧ r1.compressed = r2.compressed)

end Tracker

namespace Tracker

theorem downloadsEquiv_refl (d : List (String × DownloadRecord)) : downloadsEquiv d d :=
  ⟨fun _ => Iff.rfl, fun _ r1 r2 h1 h2 => by
    rw [h1] at h2; cases h2
    exact ⟨rfl, rfl, rfl, rfl, rfl, rfl⟩⟩

theorem createBackup_tracking (st : PState) : (createBackup st).tracking = st.tracking := by
  obtain ⟨tr, bs, cb, tp, bd⟩ := st
  cases tr <;> cases bd <;> rfl

/-- C1: loading the tracking file immediately after a successful
`save_tracking_data` wrote it yields a store whose downloads mapping is
equivalent to the saved one — same ids, and the same `filename`,
`download_date`, `file_size`, `file_path`, `checksum` and `compressed`
values for each id. -/
theorem save_load_roundtrip (td : TrackingData) (st : PState)
    (downloadDir nowSave nowLoad : String) :
    ∃ td2 st2,
      loadTrackingData downloadDir nowLoad
          (saveTrackingData false false nowSave td st).2.2 =
        Except.ok (td2, st2) ∧
      downloadsEquiv td2.downloads td.downloads := by
  refine ⟨_, _, rfl, ?_⟩
  have h : (validateAndMigrate downloadDir nowLoad
      (toRaw { td with last_updated := nowSave })).downloads = td.downloads := rfl
  rw [h]
  exact downloadsEquiv_refl _

/-- C2 (failing input): with a tracking file present whose content fails to
parse and the backups directory not yet created (the first-run situation —
`__init__` only runs `_ensure_directories` after `load_tracking_data`), the
recovery path's `shutil.copy2` into the missing backups directory raises,
and the exception propagates out of `load_tracking_data` instead of the
promised non-fatal recovery. -/
theorem load_corrupt_without_backup_dir_raises :
    loadTrackingData "./downloads" "2025-01-01T00:00:00"
      { tracking := some TFile.bad, backups := [], corruptBackups := [],
        tmp := none, backupDirExists := false } = Except.error () := rfl

/-- Concrete store and persistence state used by the C8 refutation and
witness. -/
def c8td : TrackingData :=
  { version := "1.0", created := some "t0", last_updated := "t0", downloads := [],
    statistics := { total_downloads := 0, total_size_mb := 0,
                    last_cleanup := none, last_compression := none } }

/-- Concrete persistence state used by the C8 refutation and witness. -/
def c8st : PState :=
  { tracking := none, backups := [], corruptBackups := [], tmp := none,
    backupDirExists := true }

/-- C8 (counterexample): a failing save does not leave the in-memory store
unchanged — `save_tracking_data` rewrites `last_updated` before attempting
the write, so after a failed save the store differs from the one the caller
held. -/
theorem save_failure_mutates_store :
    (saveTrackingData true false "t1" c8td c8st).1 = false ∧
    (saveTrackingData true false "t1" c8td c8st).2.1 ≠ c8td ∧
    (saveTrackingData true false "t1" c8td c8st).2.1.last_updated = "t1" := by
  refine ⟨rfl, ?_, rfl⟩
  intro h
  have : (saveTrackingData true false "t1" c8td c8st).2.1.last_updated =
      c8td.last_updated := by rw [h]
  simp [saveTrackingData, c8td] at this

/-- C8 (amended): if `save_tracking_data` fails to write the temporary file
or to complete the atomic rename, the exception propagates (the call reports
failure), no stray temporary file remains, the previously existing tracking
file is untouched, and the in-memory store is unchanged except for
`last_updated`, which the method sets before attempting the write. -/
theorem save_failure_safe (wrFail rnFail : Bool) (nowS : String)
    (td : TrackingData) (st : PState) (h : wrFail = true ∨ rnFail = true) :
    (saveTrackingData wrFail rnFail nowS td st).1 = false ∧
    (saveTrackingData wrFail rnFail nowS td st).2.2.tmp = none ∧
    (saveTrackingData wrFail rnFail nowS td st).2.2.tracking = st.tracking ∧
    (saveTrackingData wrFail rnFail nowS td st).2.1 =
      { td with last_updated := nowS } := by
  cases wrFail with
  | true =>
      exact ⟨rfl, rfl, createBackup_tracking st, rfl⟩
  | false =>
      cases rnFail with
      | true => exact ⟨rfl, rfl, createBackup_tracking st, rfl⟩
      | false => simp at h

theorem verifyLoop_eq (es : List (String × DownloadRecord)) (td : TrackingData)
    (fs : FS) (m c : List String) :
    verifyLoop es td fs m c =
      (td, fs, m ++ (es.filter (fun e => isMissing fs e.2)).map Prod.fst,
        c ++ (es.filter (fun e => isCorrupted fs e.2)).map Prod.fst) := by
  induction es generalizing m c with
  | nil => simp [verifyLoop]
  | cons e rest ih =>
    obtain ⟨id, r⟩ := e
    by_cases h1 : fsExists fs r.file_path
    · have hmiss : isMissing fs r = false := by simp [isMissing, h1]
      by_cases h2 : optTruthy r.checksum
      · by_cases h3 : (r.compressed && strEndsWith r.file_path ".gz") = true
        · have hcorr : isCorrupted fs r = false := by simp [isCorrupted, h3]
          simp [verifyLoop, h1, h2, h3, ih, List.filter_cons, hmiss, hcorr]
        · by_cases h4 : calculateChecksum fs r.file_path ≠ r.checksum.getD ""
          · have hcorr : isCorrupted fs r = true := by
              simp [isCorrupted, h1, h2, h3, h4]
            simp [verifyLoop, h1, h2, h3, h4, ih, List.filter_cons, hmiss, hcorr]
          · simp only [not_not] at h4
            have hcorr : isCorrupted fs r = false := by simp [isCorrupted, h4]
            simp [verifyLoop, h1, h2, h3, h4, ih, List.filter_cons, hmiss, hcorr]
      · have hcorr : isCorrupted fs r = false := by simp [isCorrupted, h2]
        simp [verifyLoop, h1, h2, ih, List.filter_cons, hmiss, hcorr]
    · have hmiss : isMissing fs r = true := by simp [isMissing, h1]
      have hcorr : isCorrupted fs r = false := by simp [isCorrupted, h1]
      simp [verifyLoop, h1, ih, List.filter_cons, hmiss, hcorr]

theorem mem_filter_keys {l : List (String × DownloadRecord)}
    (hnd : (l.map Prod.fst).Nodup) {id : String} {r : DownloadRecord}
    (h : l.lookup id = some r) (p : String × DownloadRecord → Bool) :
    id ∈ (l.filter p).map Prod.fst ↔ p (id, r) = true := by
  induction l with
  | nil => simp [List.lookup] at h
  | cons e rest ih =>
    obtain ⟨a, b⟩ := e
    simp only [List.map_cons, List.nodup_cons] at hnd
    by_cases heq : id = a
    · subst heq
      have hb : r = b := by
        simp [List.lookup] at h; exact h.symm
      subst hb
      by_cases hp : p (id, r) = true
      · simp [List.filter_cons, hp]
      · have hnotmem : id ∉ (rest.filter p).map Prod.fst := by
          intro hmem
          refine hnd.1 ?_
          obtain ⟨x, hx, hxeq⟩ := List.mem_map.mp hmem
          exact hxeq ▸ List.mem_map_of_mem Prod.fst (List.mem_of_mem_filter hx)
        simp only [Bool.not_eq_true] at hp
        simp [List.filter_cons, hp, hnotmem]
    · have h' : rest.lookup id = some r := by
        simpa [List.lookup, beq_false_of_ne heq] using h
      have hrec := ih hnd.2 h'
      by_cases hp : p (a, b) = true
      · simp [List.filter_cons, hp, hrec, heq]
      · simp only [Bool.not_eq_true] at hp
        simp [List.filter_cons, hp, hrec]

theorem lookup_fsRemove_ne (fs : FS) {p q : String} (h : p ≠ q) :
    (fsRemove fs q).lookup p = fs.lookup p := by
  induction fs with
  | nil => rfl
  | cons e rest ih =>
    obtain ⟨k, i⟩ := e
    by_cases hk : k = q
    · subst hk
      have hpk : (p == k) = false := by simp [h]
      simp [fsRemove, List.filter_cons, List.lookup, hpk]
      simpa [fsRemove] using ih
    · by_cases hpk : p = k
      · subst hpk
        simp [fsRemove, List.filter_cons, hk, List.lookup]
      · have hpk' : (p == k) = false := by simp [hpk]
        simp [fsRemove, List.filter_cons, hk, List.lookup, hpk']
        simpa [fsRemove] using ih

theorem lookup_fsRemove_self (fs : FS) (p : String) :
    (fsRemove fs p).lookup p = none := by
  induction fs with
  | nil => rfl
  | cons e rest ih =>
    obtain ⟨k, i⟩ := e
    by_cases hk : k = p
    · subst hk
      simp [fsRemove, List.filter_cons]
      simpa [fsRemove] using ih
    · have : (p == k) = false := by simp [Ne.symm hk]
      simp [fsRemove, List.filter_cons, hk, List.lookup, this]
      simpa [fsRemove] using ih

theorem lookup_isSome_of_filter {l : FS} {q : String × FileInfo → Bool} {p : String}
    (h : ((l.filter q).lookup p).isSome = true) : (l.lookup p).isSome = true := by
  induction l with
  | nil => simp [List.filter] at h
  | cons e rest ih =>
    obtain ⟨k, i⟩ := e
    by_cases hpk : p = k
    · subst hpk
      simp [List.lookup]
    · have hpk' : (p == k) = false := by simp [hpk]
      simp only [List.lookup, hpk']
      by_cases hq : q (k, i) = true
      · rw [List.filter_cons_of_pos hq] at h
        simp only [List.lookup, hpk'] at h
        exact ih h
      · rw [List.filter_cons_of_neg (by simpa using hq)] at h
        exact ih h

theorem fsWF_fsRemove {fs : FS} (h : fsWF fs) (q : String) : fsWF (fsRemove fs q) :=
  ((List.filter_sublist fs).map Prod.fst).nodup h

theorem fsTotal_remove {fs : FS} (hwf : fsWF fs) {p : String} {i : FileInfo}
    (h : fs.lookup p = some i) :
    fsTotal fs = i.size + fsTotal (fsRemove fs p) := by
  induction fs with
  | nil => simp [List.lookup] at h
  | cons e rest ih =>
    obtain ⟨k, j⟩ := e
    simp only [fsWF, List.map_cons, List.nodup_cons] at hwf
    by_cases hpk : p = k
    · subst hpk
      have hji : j = i := by simpa [List.lookup] using h
      have hrest : fsRemove rest p = rest := by
        rw [fsRemove, List.filter_eq_self]
        intro e he
        simp only [decide_eq_true_eq]
        intro hep
        exact hwf.1 (hep ▸ List.mem_map_of_mem Prod.fst he)
      have hstep : fsRemove ((p, j) :: rest) p = fsRemove rest p := by
        simp [fsRemove, List.filter_cons]
      rw [hstep, hrest, hji]
      simp [fsTotal]
    · have hpk' : (p == k) = false := by simp [hpk]
      have h' : rest.lookup p = some i := by simpa [List.lookup, hpk'] using h
      have hstep : fsRemove ((k, j) :: rest) p = (k, j) :: fsRemove rest p := by
        simp [fsRemove, List.filter_cons, Ne.symm hpk]
      have hrec := ih hwf.2 h'
      rw [hstep]
      simp only [fsTotal, List.map_cons, List.sum_cons]
      simp only [fsTotal] at hrec
      omega

theorem cleanupLoop_fs_mono (remFail : String → Bool)
    (es dl : List (String × DownloadRecord)) (fs : FS) (c : Nat) (a : Rat)
    (p : String)
    (h : fsExists (cleanupLoop remFail es dl fs c a).2.1 p = true) :
    fsExists fs p = true := by
  induction es generalizing dl fs c a with
  | nil => exact h
  | cons e rest ih =>
    obtain ⟨id, r⟩ := e
    by_cases hex : fsExists fs r.file_path
    · by_cases hrf : remFail r.file_path = true
      · rw [cleanupLoop, if_pos hex, if_pos hrf] at h
        exact h
      · rw [cleanupLoop, if_pos hex, if_neg hrf] at h
        have := ih _ _ _ _ h
        exact lookup_isSome_of_filter this
    · rw [cleanupLoop, if_neg hex] at h
      exact ih _ _ _ _ h

theorem cleanupLoop_noFail_dl (remFail : String → Bool)
    (es dl : List (String × DownloadRecord)) (fs : FS) (c : Nat) (a : Rat)
    (h : ∀ e ∈ es, remFail e.2.file_path = false) :
    (cleanupLoop remFail es dl fs c a).1 =
      dl.filter (fun e => decide (e.1 ∉ es.map Prod.fst)) := by
  induction es generalizing dl fs c a with
  | nil => simp [cleanupLoop]
  | cons e0 rest ih =>
    obtain ⟨id, r⟩ := e0
    have hr : remFail r.file_path ≠ true := by
      simp [h (id, r) (List.mem_cons_self _ _)]
    have hrest : ∀ e ∈ rest, remFail e.2.file_path = false :=
      fun e he => h e (List.mem_cons_of_mem _ he)
    have hcomb : (removeKey id dl).filter (fun e => decide (e.1 ∉ rest.map Prod.fst)) =
        dl.filter (fun e => decide (e.1 ∉ ((id, r) :: rest).map Prod.fst)) := by
      rw [removeKey, List.filter_filter]
      apply List.filter_congr
      intro e _
      by_cases h1 : e.1 = id
      · simp [h1]
      · simp [h1]
    by_cases hex : fsExists fs r.file_path
    · rw [cleanupLoop, if_pos hex, if_neg hr, ih _ _ _ _ hrest, hcomb]
    · rw [cleanupLoop, if_neg hex, ih _ _ _ _ hrest, hcomb]

theorem cleanupLoop_noFail_files (remFail : String → Bool)
    (es dl : List (String × DownloadRecord)) (fs : FS) (c : Nat) (a : Rat)
    (h : ∀ e ∈ es, remFail e.2.file_path = false) :
    ∀ e ∈ es, fsExists (cleanupLoop remFail es dl fs c a).2.1 e.2.file_path = false := by
  induction es generalizing dl fs c a with
  | nil => intro e he; simp at he
  | cons e0 rest ih =>
    obtain ⟨id, r⟩ := e0
    have hr : remFail r.file_path ≠ true := by
      simp [h (id, r) (List.mem_cons_self _ _)]
    have hrest : ∀ e ∈ rest, remFail e.2.file_path = false :=
      fun e he => h e (List.mem_cons_of_mem _ he)
    intro e he
    rcases List.mem_cons.mp he with heq | hmem
    · subst heq
      by_cases hex : fsExists fs r.file_path
      · rw [cleanupLoop, if_pos hex, if_neg hr]
        by_contra hcon
        have hc : fsExists (fsRemove fs r.file_path) r.file_path = true :=
          cleanupLoop_fs_mono _ _ _ _ _ _ _ (by simpa using hcon)
        rw [fsExists, lookup_fsRemove_self] at hc
        simp at hc
      · rw [cleanupLoop, if_neg hex]
        by_contra hcon
        exact hex (cleanupLoop_fs_mono _ _ _ _ _ _ _ (by simpa using hcon))
    · by_cases hex : fsExists fs r.file_path
      · rw [cleanupLoop, if_pos hex, if_neg hr]
        exact ih _ _ _ _ hrest e hmem
      · rw [cleanupLoop, if_neg hex]
        exact ih _ _ _ _ hrest e hmem

theorem cleanupLoop_noFail_size (remFail : String → Bool)
    (es dl : List (String × DownloadRecord)) (fs : FS) (c : Nat) (a : Rat)
    (hwf : fsWF fs) (h : ∀ e ∈ es, remFail e.2.file_path = false) :
    (cleanupLoop remFail es dl fs c a).2.2.2.2 = true ∧
    fsWF (cleanupLoop remFail es dl fs c a).2.1 ∧
    (cleanupLoop remFail es dl fs c a).2.2.2.1 =
      a + ((fsTotal fs : Rat) -
        (fsTotal (cleanupLoop remFail es dl fs c a).2.1 : Rat)) / 1048576 := by
  induction es generalizing dl fs c a with
  | nil =>
      refine ⟨rfl, hwf, ?_⟩
      simp [cleanupLoop]
  | cons e0 rest ih =>
    obtain ⟨id, r⟩ := e0
    have hr : remFail r.file_path ≠ true := by
      simp [h (id, r) (List.mem_cons_self _ _)]
    have hrest : ∀ e ∈ rest, remFail e.2.file_path = false :=
      fun e he => h e (List.mem_cons_of_mem _ he)
    by_cases hex : fsExists fs r.file_path
    · obtain ⟨i, hi⟩ : ∃ i, fs.lookup r.file_path = some i := by
        rw [fsExists] at hex
        exact Option.isSome_iff_exists.mp hex
      have hwf' := fsWF_fsRemove hwf r.file_path
      have htot := fsTotal_remove hwf hi
      have hsz : fsSize fs r.file_path = i.size := by rw [fsSize, hi]
      rw [cleanupLoop, if_pos hex, if_neg hr]
      obtain ⟨hok, hwf2, hacc⟩ := ih (removeKey id dl) (fsRemove fs r.file_path)
        (c + 1) (a + (fsSize fs r.file_path : Rat) / 1048576) hwf' hrest
      refine ⟨hok, hwf2, ?_⟩
      rw [hacc, hsz]
      have hT : (fsTotal fs : Rat) =
          (i.size : Rat) + (fsTotal (fsRemove fs r.file_path) : Rat) := by
        rw [htot]
        push_cast
        ring
      rw [hT]
      ring
    · rw [cleanupLoop, if_neg hex]
      exact ih _ _ _ _ hwf hrest

/-- C3: with every recorded date parseable (`pd` total) and no deletion
failure, after `cleanup_old_files(maxAgeDays)`: no record remaining in the
downloads mapping has a download date earlier than `now - maxAgeDays` (in
seconds); every expired record's file is absent from disk afterwards (so a
present file was deleted); and the returned freed size equals the exact drop
in on-disk bytes converted to megabytes — accumulated from on-disk sizes,
not from the recorded `file_size` fields. -/
theorem cleanup_old_files_correct (pd : String → Int) (remFail : String → Bool)
    (nowT : Int) (nowS : String) (maxAgeDays : Int)
    (td : TrackingData) (fs : FS) (ps : PState)
    (hrf : ∀ p, remFail p = false) (hwf : fsWF fs) :
    (∀ id r,
      (id, r) ∈ (cleanupOldFiles pd remFail nowT nowS maxAgeDays td fs ps).1.downloads →
      ¬ (pd r.download_date < nowT - maxAgeDays * secPerDay)) ∧
    (∀ id r, (id, r) ∈ td.downloads →
      pd r.download_date < nowT - maxAgeDays * secPerDay →
      fsExists (cleanupOldFiles pd remFail nowT nowS maxAgeDays td fs ps).2.1
        r.file_path = false) ∧
    (cleanupOldFiles pd remFail nowT nowS maxAgeDays td fs ps).2.2.2.2 =
      ((fsTotal fs : Rat) -
        (fsTotal (cleanupOldFiles pd remFail nowT nowS maxAgeDays td fs ps).2.1 : Rat))
        / 1048576 := by
  set cutoff := nowT - maxAgeDays * secPerDay with hcut
  set toRemove := td.downloads.filter (fun e => isExpired pd cutoff e.2) with htr
  have hno : ∀ e ∈ toRemove, remFail e.2.file_path = false := fun e _ => hrf _
  obtain ⟨hok, hwf2, hacc⟩ :=
    cleanupLoop_noFail_size remFail toRemove td.downloads fs 0 0 hwf hno
  have hshape : cleanupOldFiles pd remFail nowT nowS maxAgeDays td fs ps =
      ({ td with
          downloads := (cleanupLoop remFail toRemove td.downloads fs 0 0).1,
          statistics := { td.statistics with
            last_cleanup := some nowS,
            total_downloads := td.statistics.total_downloads -
              (cleanupLoop remFail toRemove td.downloads fs 0 0).2.2.1,
            total_size_mb := td.statistics.total_size_mb -
              (cleanupLoop remFail toRemove td.downloads fs 0 0).2.2.2.1 } },
        (cleanupLoop remFail toRemove td.downloads fs 0 0).2.1, ps,
        (cleanupLoop remFail toRemove td.downloads fs 0 0).2.2.1,
        (cleanupLoop remFail toRemove td.downloads fs 0 0).2.2.2.1) := by
    rw [cleanupOldFiles]
    simp only [← hcut, ← htr, hok, if_true]
  refine ⟨?_, ?_, ?_⟩
  · intro id r hmem
    rw [hshape] at hmem
    simp only at hmem
    rw [cleanupLoop_noFail_dl remFail toRemove td.downloads fs 0 0 hno] at hmem
    intro hexp
    have h1 := List.mem_filter.mp hmem
    have h2 : (id, r) ∈ toRemove := by
      rw [htr]
      exact List.mem_filter.mpr ⟨h1.1, by simpa [isExpired, hcut] using hexp⟩
    have h3 : id ∈ toRemove.map Prod.fst := List.mem_map_of_mem Prod.fst h2
    have h4 := h1.2
    simp only [decide_eq_true_eq] at h4
    exact h4 h3
  · intro id r hmem hexp
    have h2 : (id, r) ∈ toRemove := by
      rw [htr]
      exact List.mem_filter.mpr ⟨hmem, by simpa [isExpired, hcut] using hexp⟩
    have := cleanupLoop_noFail_files remFail toRemove td.downloads fs 0 0 hno (id, r) h2
    rw [hshape]
    exact this
  · rw [hshape]
    simp only
    rw [hacc, zero_add]

/-- Concrete record for the C3 witness: expired, with a 1 MiB file on
disk. -/
def c3rec : DownloadRecord :=
  { edicto_id := "e1", filename := "f1", download_date := "d", file_size := 3,
    file_path := "p1" }

/-- Concrete store for the C3 witness. -/
def c3td : TrackingData :=
  { version := "1.0", created := none, last_updated := "t",
    downloads := [("e1", c3rec)],
    statistics := { total_downloads := 1, total_size_mb := 0,
                    last_cleanup := none, last_compression := none } }

/-- Concrete filesystem for the C3 witness. -/
def c3fs : FS := [("p1", { size := 1048576, digest := "h" })]

/-- Concrete persistence state for the C3 witness. -/
def c3ps : PState :=
  { tracking := none, backups := [], corruptBackups := [], tmp := none,
    backupDirExists := true }

/-- Witness for `cleanup_old_files_correct` at a concrete store (dates are
interpreted by their length here, so the date `"d"` parses to 1 and the
cutoff is 200). -/
theorem cleanup_old_files_correct_witness :
    (∀ id r, (id, r) ∈ (cleanupOldFiles (fun s => (s.length : Int)) (fun _ => false)
        200 "now" 0 c3td c3fs c3ps).1.downloads →
      ¬ ((fun s : String => (s.length : Int)) r.download_date < 200 - 0 * secPerDay)) ∧
    (∀ id r, (id, r) ∈ c3td.downloads →
      (fun s : String => (s.length : Int)) r.download_date < 200 - 0 * secPerDay →
      fsExists (cleanupOldFiles (fun s => (s.length : Int)) (fun _ => false)
        200 "now" 0 c3td c3fs c3ps).2.1 r.file_path = false) ∧
    (cleanupOldFiles (fun s => (s.length : Int)) (fun _ => false)
        200 "now" 0 c3td c3fs c3ps).2.2.2.2 =
      ((fsTotal c3fs : Rat) -
        (fsTotal (cleanupOldFiles (fun s => (s.length : Int)) (fun _ => false)
          200 "now" 0 c3td c3fs c3ps).2.1 : Rat)) / 1048576 :=
  cleanup_old_files_correct (fun s => (s.length : Int)) (fun _ => false)
    200 "now" 0 c3td c3fs c3ps (fun _ => rfl) (by unfold fsWF; decide)

/-- Concrete expired record whose deletion fails, for C9. -/
def c9rec1 : DownloadRecord :=
  { edicto_id := "e1", filename := "f1", download_date := "d", file_size := 5,
    file_path := "p1" }

/-- Concrete expired record behind the failing one, for C9. -/
def c9rec2 : DownloadRecord :=
  { edicto_id := "e2", filename := "f2", download_date := "d", file_size := 7,
    file_path := "p2" }

/-- Concrete store for C9: two expired records with files on disk. -/
def c9td : TrackingData :=
  { version := "1.0", created := none, last_updated := "t",
    downloads := [("e1", c9rec1), ("e2", c9rec2)],
    statistics := { total_downloads := 2, total_size_mb := 0,
                    last_cleanup := none, last_compression := none } }

/-- Concrete filesystem for C9. -/
def c9fs : FS :=
  [("p1", { size := 5, digest := "h1" }), ("p2", { size := 7, digest := "h2" })]

/-- Concrete persistence state for C9. -/
def c9ps : PState :=
  { tracking := none, backups := [], corruptBackups := [], tmp := none,
    backupDirExists := true }

/-- Deleting `p1` fails, everything else succeeds. -/
def c9remFail (p : String) : Bool := p == "p1"

/-- C9 (counterexample): with two expired records and the first deletion
failing, `cleanup_old_files` does not continue over the remaining records —
the whole pass stops, the second expired record (whose own deletion would
have succeeded) stays in the downloads mapping with its file intact, and the
returned aggregates count nothing: the failure is not counted. -/
theorem cleanup_failure_not_per_record :
    (cleanupOldFiles (fun s => (s.length : Int)) c9remFail
        200 "now" 0 c9td c9fs c9ps).1.downloads = c9td.downloads ∧
    ((fun s : String => (s.length : Int)) c9rec2.download_date < 200 - 0 * secPerDay) ∧
    c9remFail c9rec2.file_path = false ∧
    fsExists (cleanupOldFiles (fun s => (s.length : Int)) c9remFail
        200 "now" 0 c9td c9fs c9ps).2.1 c9rec2.file_path = true ∧
    (cleanupOldFiles (fun s => (s.length : Int)) c9remFail
        200 "now" 0 c9td c9fs c9ps).2.2.2.1 = 0 := by
  refine ⟨?_, by decide, by decide, ?_, ?_⟩ <;> decide

theorem cleanupLoop_abort (remFail : String → Bool)
    (pre : List (String × DownloadRecord)) (bid : String) (br : DownloadRecord)
    (post dl : List (String × DownloadRecord)) (fs : FS) (c : Nat) (a : Rat)
    (hpre : ∀ e ∈ pre, remFail e.2.file_path = false)
    (hsep : ∀ e ∈ pre, e.2.file_path ≠ br.file_path)
    (hbr : remFail br.file_path = true)
    (hex : fsExists fs br.file_path = true) :
    ∃ fs' a',
      cleanupLoop remFail (pre ++ (bid, br) :: post) dl fs c a =
        (dl.filter (fun e => decide (e.1 ∉ pre.map Prod.fst)), fs',
          c + pre.length, a', false) := by
  induction pre generalizing dl fs c a with
  | nil =>
      refine ⟨fs, a, ?_⟩
      rw [List.nil_append, cleanupLoop, if_pos hex, if_pos hbr]
      simp
  | cons e0 rest ih =>
    obtain ⟨id, r⟩ := e0
    have hr : remFail r.file_path ≠ true := by
      simp [hpre (id, r) (List.mem_cons_self _ _)]
    have hrest : ∀ e ∈ rest, remFail e.2.file_path = false :=
      fun e he => hpre e (List.mem_cons_of_mem _ he)
    have hsep' : ∀ e ∈ rest, e.2.file_path ≠ br.file_path :=
      fun e he => hsep e (List.mem_cons_of_mem _ he)
    have hrbr : br.file_path ≠ r.file_path :=
      Ne.symm (hsep (id, r) (List.mem_cons_self _ _))
    have hcomb : (removeKey id dl).filter (fun e => decide (e.1 ∉ rest.map Prod.fst)) =
        dl.filter (fun e => decide (e.1 ∉ ((id, r) :: rest).map Prod.fst)) := by
      rw [removeKey, List.filter_filter]
      apply List.filter_congr
      intro e _
      by_cases h1 : e.1 = id
      · simp [h1]
      · simp [h1]
    have hlen : ∀ n : Nat, n + 1 + rest.length = n + (rest.length + 1) := by omega
    by_cases hexr : fsExists fs r.file_path
    · have hex' : fsExists (fsRemove fs r.file_path) br.file_path = true := by
        rw [fsExists, lookup_fsRemove_ne _ hrbr]
        exact hex
      obtain ⟨fs', a', hres⟩ := ih (removeKey id dl) (fsRemove fs r.file_path)
        (c + 1) (a + (fsSize fs r.file_path : Rat) / 1048576) hrest hsep' hex'
      refine ⟨fs', a', ?_⟩
      rw [List.cons_append, cleanupLoop, if_pos hexr, if_neg hr, hres, hcomb]
      simp [hlen]
    · obtain ⟨fs', a', hres⟩ := ih (removeKey id dl) fs (c + 1) a hrest hsep' hex
      refine ⟨fs', a', ?_⟩
      rw [List.cons_append, cleanupLoop, if_neg hexr, hres, hcomb]
      simp [hlen]

/-- C9 (amended): when an I/O failure occurs while deleting one record's
file during `cleanup_old_files`, no exception propagates, but the pass does
not continue: it stops at the failing record, the statistics are left
unmodified (not even `last_cleanup` is stamped), the failing record and
every expired record after it stay in the downloads mapping, and the
returned aggregates count only the records fully processed before the
failure — the failure itself is not counted anywhere. -/
theorem cleanup_failure_stops_pass (pd : String → Int) (remFail : String → Bool)
    (nowT : Int) (nowS : String) (maxAgeDays : Int)
    (td : TrackingData) (fs : FS) (ps : PState)
    (pre post : List (String × DownloadRecord)) (bid : String) (br : DownloadRecord)
    (hnd : (td.downloads.map Prod.fst).Nodup)
    (hsplit : td.downloads.filter
        (fun e => isExpired pd (nowT - maxAgeDays * secPerDay) e.2) =
      pre ++ (bid, br) :: post)
    (hpre : ∀ e ∈ pre, remFail e.2.file_path = false)
    (hsep : ∀ e ∈ pre, e.2.file_path ≠ br.file_path)
    (hbr : remFail br.file_path = true)
    (hex : fsExists fs br.file_path = true) :
    (cleanupOldFiles pd remFail nowT nowS maxAgeDays td fs ps).1.statistics =
      td.statistics ∧
    (cleanupOldFiles pd remFail nowT nowS maxAgeDays td fs ps).2.2.2.1 =
      pre.length ∧
    (bid, br) ∈ (cleanupOldFiles pd remFail nowT nowS maxAgeDays td fs ps).1.downloads ∧
    ∀ e ∈ post, e ∈ (cleanupOldFiles pd remFail nowT nowS maxAgeDays td fs ps).1.downloads := by
  obtain ⟨fs', a', hres⟩ := cleanupLoop_abort remFail pre bid br post td.downloads
    fs 0 0 hpre hsep hbr hex
  have hndf : ((td.downloads.filter
      (fun e => isExpired pd (nowT - maxAgeDays * secPerDay) e.2)).map Prod.fst).Nodup :=
    ((List.filter_sublist _).map Prod.fst).nodup hnd
  rw [hsplit] at hndf
  simp only [List.map_append, List.map_cons] at hndf
  have hdisj := (List.nodup_append.mp hndf).2.2
  have hbid : bid ∉ pre.map Prod.fst := by
    intro hmem
    exact hdisj hmem (List.mem_cons_self _ _)
  set dlf := td.downloads.filter (fun e => decide (e.1 ∉ pre.map Prod.fst)) with hdlf
  have hshape : cleanupOldFiles pd remFail nowT nowS maxAgeDays td fs ps =
      ({ td with downloads := dlf }, fs', ps, pre.length, a') := by
    rw [cleanupOldFiles]
    simp only [hsplit, hres]
    simp
  refine ⟨by rw [hshape], by rw [hshape], ?_, ?_⟩
  · rw [hshape]
    simp only
    apply List.mem_filter.mpr
    refine ⟨?_, by simpa using hbid⟩
    have : (bid, br) ∈ td.downloads.filter
        (fun e => isExpired pd (nowT - maxAgeDays * secPerDay) e.2) := by
      rw [hsplit]
      exact List.mem_append_right _ (List.mem_cons_self _ _)
    exact List.mem_of_mem_filter this
  · intro e he
    rw [hshape]
    simp only
    apply List.mem_filter.mpr
    have hein : e ∈ td.downloads.filter
        (fun e => isExpired pd (nowT - maxAgeDays * secPerDay) e.2) := by
      rw [hsplit]
      exact List.mem_append_right _ (List.mem_cons_of_mem _ he)
    refine ⟨List.mem_of_mem_filter hein, ?_⟩
    simp only [decide_eq_true_eq]
    intro hmem
    exact hdisj hmem (List.mem_cons_of_mem _ (List.mem_map_of_mem Prod.fst he))

/-- Witness for `cleanup_failure_stops_pass` at the concrete C9 store. -/
theorem cleanup_failure_stops_pass_witness :
    (cleanupOldFiles (fun s => (s.length : Int)) c9remFail
        200 "now" 0 c9td c9fs c9ps).1.statistics = c9td.statistics ∧
    (cleanupOldFiles (fun s => (s.length : Int)) c9remFail
        200 "now" 0 c9td c9fs c9ps).2.2.2.1 = 0 ∧
    ("e1", c9rec1) ∈ (cleanupOldFiles (fun s => (s.length : Int)) c9remFail
        200 "now" 0 c9td c9fs c9ps).1.downloads ∧
    ∀ e ∈ [("e2", c9rec2)],
      e ∈ (cleanupOldFiles (fun s => (s.length : Int)) c9remFail
        200 "now" 0 c9td c9fs c9ps).1.downloads :=
  cleanup_failure_stops_pass (fun s => (s.length : Int)) c9remFail
    200 "now" 0 c9td c9fs c9ps [] [("e2", c9rec2)] "e1" c9rec1
    (by decide) (by decide)
    (fun e he => absurd he (List.not_mem_nil e))
    (fun e he => absurd he (List.not_mem_nil e))
    (by decide) (by decide)

theorem cleanupLoop_noFail_ok (remFail : String → Bool)
    (es dl : List (String × DownloadRecord)) (fs : FS) (c : Nat) (a : Rat)
    (h : ∀ e ∈ es, remFail e.2.file_path = false) :
    (cleanupLoop remFail es dl fs c a).2.2.2.2 = true := by
  induction es generalizing dl fs c a with
  | nil => rfl
  | cons e0 rest ih =>
    obtain ⟨id, r⟩ := e0
    have hr : remFail r.file_path ≠ true := by
      simp [h (id, r) (List.mem_cons_self _ _)]
    have hrest : ∀ e ∈ rest, remFail e.2.file_path = false :=
      fun e he => h e (List.mem_cons_of_mem _ he)
    by_cases hex : fsExists fs r.file_path
    · rw [cleanupLoop, if_pos hex, if_neg hr]
      exact ih _ _ _ _ hrest
    · rw [cleanupLoop, if_neg hex]
      exact ih _ _ _ _ hrest

/-- Concrete record for C7: one tracked 2 MiB file. -/
def c7rec : DownloadRecord :=
  { edicto_id := "e1", filename := "f1", download_date := "d",
    file_size := 2097152, file_path := "p1" }

/-- Concrete store for C7. -/
def c7td : TrackingData :=
  { version := "1.0", created := none, last_updated := "t",
    downloads := [("e1", c7rec)],
    statistics := { total_downloads := 1, total_size_mb := 2,
                    last_cleanup := none, last_compression := none } }

/-- Concrete filesystem for C7. -/
def c7fs : FS := [("p1", { size := 2097152, digest := "h" })]

/-- Concrete persistence state for C7. -/
def c7ps : PState :=
  { tracking := none, backups := [], corruptBackups := [], tmp := none,
    backupDirExists := true }

/-- C7 (counterexample): an over-limit `cleanup_by_storage_limit` run that
does remove a record (so the retention policy genuinely ran) leaves the
last-cleanup timestamp untouched — the method updates only the cached
totals, contradicting the claim that every run of either retention policy
updates the last-cleanup timestamp. -/
theorem storage_cleanup_no_last_cleanup_stamp :
    (cleanupByStorageLimit (fun s => (s.length : Int)) 1 c7td c7fs c7ps).2.2.2.1 = 1 ∧
    (cleanupByStorageLimit (fun s => (s.length : Int)) 1 c7td c7fs c7ps).1.downloads = [] ∧
    c7td.statistics.last_cleanup = none ∧
    (cleanupByStorageLimit (fun s => (s.length : Int)) 1 c7td c7fs
      c7ps).1.statistics.last_cleanup = none := by
  refine ⟨?_, ?_, rfl, ?_⟩ <;>
    norm_num [cleanupByStorageLimit, getStorageStats, statsStep, sortByDate,
      insertByDate, sortStr, insertSortedStr, storageLoop, fsExists, fsSize,
      removeKey, fsRemove, c7td, c7fs, c7rec, List.lookup]

/-- C7 (amended): `cleanup_old_files` (when its deletions succeed) stamps
`statistics.last_cleanup` with the current time and decrements the cached
totals by what it removed, while `cleanup_by_storage_limit` decrements the
cached totals but leaves the last-cleanup timestamp unchanged; neither
policy touches the persistence state, so the tracking file is not written —
persistence is left to a subsequent save call. -/
theorem retention_statistics_updates (pd : String → Int) (remFail : String → Bool)
    (nowT : Int) (nowS : String) (maxAgeDays : Int) (maxMb : Rat)
    (td td2 : TrackingData) (fs fs2 : FS) (ps ps2 : PState)
    (hrf : ∀ p, remFail p = false) :
    ((cleanupOldFiles pd remFail nowT nowS maxAgeDays td fs ps).1.statistics.last_cleanup
        = some nowS ∧
     (cleanupOldFiles pd remFail nowT nowS maxAgeDays td fs ps).1.statistics.total_downloads
        = td.statistics.total_downloads -
          (cleanupOldFiles pd remFail nowT nowS maxAgeDays td fs ps).2.2.2.1 ∧
     (cleanupOldFiles pd remFail nowT nowS maxAgeDays td fs ps).1.statistics.total_size_mb
        = td.statistics.total_size_mb -
          (cleanupOldFiles pd remFail nowT nowS maxAgeDays td fs ps).2.2.2.2 ∧
     (cleanupOldFiles pd remFail nowT nowS maxAgeDays td fs ps).2.2.1 = ps) ∧
    ((cleanupByStorageLimit pd maxMb td2 fs2 ps2).1.statistics.total_downloads
        = td2.statistics.total_downloads -
          (cleanupByStorageLimit pd maxMb td2 fs2 ps2).2.2.2.1 ∧
     (cleanupByStorageLimit pd maxMb td2 fs2 ps2).1.statistics.total_size_mb
        = td2.statistics.total_size_mb -
          (cleanupByStorageLimit pd maxMb td2 fs2 ps2).2.2.2.2 ∧
     (cleanupByStorageLimit pd maxMb td2 fs2 ps2).1.statistics.last_cleanup
        = td2.statistics.last_cleanup ∧
     (cleanupByStorageLimit pd maxMb td2 fs2 ps2).2.2.1 = ps2) := by
  constructor
  · have hok := cleanupLoop_noFail_ok remFail
      (td.downloads.filter (fun e => isExpired pd (nowT - maxAgeDays * secPerDay) e.2))
      td.downloads fs 0 0 (fun e _ => hrf _)
    refine ⟨?_, ?_, ?_, ?_⟩ <;> simp [cleanupOldFiles, hok]
  · by_cases hle : (getStorageStats td2 fs2).total_size_mb ≤ maxMb
    · refine ⟨?_, ?_, ?_, ?_⟩ <;> simp [cleanupByStorageLimit, hle]
    · refine ⟨?_, ?_, ?_, ?_⟩ <;> simp [cleanupByStorageLimit, hle]

/-- Witness for `retention_statistics_updates` at a concrete store. -/
theorem retention_statistics_updates_witness :
    ((cleanupOldFiles (fun s => (s.length : Int)) (fun _ => false)
        200 "now" 0 c3td c3fs c3ps).1.statistics.last_cleanup = some "now" ∧
     (cleanupOldFiles (fun s => (s.length : Int)) (fun _ => false)
        200 "now" 0 c3td c3fs c3ps).1.statistics.total_downloads
        = c3td.statistics.total_downloads -
          (cleanupOldFiles (fun s => (s.length : Int)) (fun _ => false)
            200 "now" 0 c3td c3fs c3ps).2.2.2.1 ∧
     (cleanupOldFiles (fun s => (s.length : Int)) (fun _ => false)
        200 "now" 0 c3td c3fs c3ps).1.statistics.total_size_mb
        = c3td.statistics.total_size_mb -
          (cleanupOldFiles (fun s => (s.length : Int)) (fun _ => false)
            200 "now" 0 c3td c3fs c3ps).2.2.2.2 ∧
     (cleanupOldFiles (fun s => (s.length : Int)) (fun _ => false)
        200 "now" 0 c3td c3fs c3ps).2.2.1 = c3ps) ∧
    ((cleanupByStorageLimit (fun s => (s.length : Int)) 1 c7td c7fs c7ps).1.statistics.total_downloads
        = c7td.statistics.total_downloads -
          (cleanupByStorageLimit (fun s => (s.length : Int)) 1 c7td c7fs c7ps).2.2.2.1 ∧
     (cleanupByStorageLimit (fun s => (s.length : Int)) 1 c7td c7fs c7ps).1.statistics.total_size_mb
        = c7td.statistics.total_size_mb -
          (cleanupByStorageLimit (fun s => (s.length : Int)) 1 c7td c7fs c7ps).2.2.2.2 ∧
     (cleanupByStorageLimit (fun s => (s.length : Int)) 1 c7td c7fs c7ps).1.statistics.last_cleanup
        = c7td.statistics.last_cleanup ∧
     (cleanupByStorageLimit (fun s => (s.length : Int)) 1 c7td c7fs c7ps).2.2.1 = c7ps) :=
  retention_statistics_updates (fun s => (s.length : Int)) (fun _ => false)
    200 "now" 0 1 c3td c7td c3fs c7fs c3ps c7ps (fun _ => rfl)

/-- The live total in megabytes: the sum of the recorded sizes of the
records whose file currently exists.  This is what `get_storage_stats`
accumulates into `total_size_mb`. -/
def liveMb (dl : List (String × DownloadRecord)) (fs : FS) : Rat :=
  ((dl.filter (fun e => fsExists fs e.2.file_path)).map
    (fun e => (e.2.file_size : Rat) / 1048576)).sum

theorem liveMb_nil (fs : FS) : liveMb [] fs = 0 := rfl

theorem liveMb_cons (e : String × DownloadRecord)
    (rest : List (String × DownloadRecord)) (fs : FS) :
    liveMb (e :: rest) fs =
      (if fsExists fs e.2.file_path then (e.2.file_size : Rat) / 1048576 else 0) +
        liveMb rest fs := by
  by_cases h : fsExists fs e.2.file_path
  · simp [liveMb, List.filter_cons, h]
  · simp [liveMb, List.filter_cons, h]

theorem statsFold_total (fs : FS) (dl : List (String × DownloadRecord))
    (s : StorageStats) (ds : List String) :
    (dl.foldl (statsStep fs) (s, ds)).1.total_size_mb =
      s.total_size_mb + liveMb dl fs := by
  induction dl generalizing s ds with
  | nil => simp [liveMb]
  | cons e rest ih =>
    by_cases h : fsExists fs e.2.file_path
    · by_cases hc : e.2.compressed
      · simp only [List.foldl_cons, statsStep, h, if_true, hc]
        rw [ih]
        rw [liveMb_cons]
        simp [h]
        ring
      · simp only [List.foldl_cons, statsStep, h, if_true, hc]
        rw [ih]
        rw [liveMb_cons]
        simp [h, hc]
        ring
    · simp only [List.foldl_cons, statsStep, h]
      rw [liveMb_cons]
      simp only [h, if_false]
      rw [ih]
      ring_nf
      simp [h]

theorem getStorageStats_total (td : TrackingData) (fs : FS) :
    (getStorageStats td fs).total_size_mb = liveMb td.downloads fs := by
  rw [getStorageStats]
  by_cases h : (td.downloads.foldl (statsStep fs) ({}, [])).2 ≠ []
  · simp only [h, if_true, if_pos h]
    have := statsFold_total fs td.downloads {} []
    simpa using this
  · simp only [if_neg h]
    have := statsFold_total fs td.downloads {} []
    simpa using this

theorem insertByDate_perm (a : Int × String × DownloadRecord)
    (l : List (Int × String × DownloadRecord)) :
    (insertByDate a l).Perm (a :: l) := by
  induction l with
  | nil => exact List.Perm.refl _
  | cons b bs ih =>
    rw [insertByDate]
    by_cases h : b.1 ≤ a.1
    · rw [if_pos h]
      exact (List.Perm.cons b ih).trans (List.Perm.swap a b bs)
    · rw [if_neg h]

theorem sortByDate_perm (l : List (Int × String × DownloadRecord)) :
    (sortByDate l).Perm l := by
  have key : ∀ (l acc : List (Int × String × DownloadRecord)),
      (l.foldl (fun acc a => insertByDate a acc) acc).Perm (acc ++ l) := by
    intro l
    induction l with
    | nil => intro acc; simp
    | cons a t ih =>
      intro acc
      exact (ih (insertByDate a acc)).trans
        (((insertByDate_perm a acc).append_right t).trans List.perm_middle.symm)
  simpa using key l []

theorem insertByDate_sorted (a : Int × String × DownloadRecord)
    (l : List (Int × String × DownloadRecord))
    (h : l.Pairwise (fun x y => x.1 ≤ y.1)) :
    (insertByDate a l).Pairwise (fun x y => x.1 ≤ y.1) := by
  induction l with
  | nil => simp [insertByDate]
  | cons b bs ih =>
    rw [List.pairwise_cons] at h
    rw [insertByDate]
    by_cases hba : b.1 ≤ a.1
    · rw [if_pos hba]
      rw [List.pairwise_cons]
      refine ⟨?_, ih h.2⟩
      intro x hx
      have hx' := (insertByDate_perm a bs).mem_iff.mp hx
      rcases List.mem_cons.mp hx' with hxa | hxb
      · rw [hxa]; exact hba
      · exact h.1 x hxb
    · rw [if_neg hba]
      have hab : a.1 ≤ b.1 := le_of_not_le hba
      rw [List.pairwise_cons]
      refine ⟨?_, List.pairwise_cons.mpr h⟩
      intro x hx
      rcases List.mem_cons.mp hx with hxb | hxbs
      · rw [hxb]; exact hab
      · exact le_trans hab (h.1 x hxbs)

theorem sortByDate_sorted (l : List (Int × String × DownloadRecord)) :
    (sortByDate l).Pairwise (fun x y => x.1 ≤ y.1) := by
  have key : ∀ (l acc : List (Int × String × DownloadRecord)),
      acc.Pairwise (fun x y => x.1 ≤ y.1) →
      (l.foldl (fun acc a => insertByDate a acc) acc).Pairwise (fun x y => x.1 ≤ y.1) := by
    intro l
    induction l with
    | nil => intro acc h; simpa using h
    | cons a t ih => intro acc h; exact ih _ (insertByDate_sorted a acc h)
  exact key l [] List.Pairwise.nil

theorem removeKey_filter_notmem (id : String) (ks : List String)
    (dl : List (String × DownloadRecord)) :
    (removeKey id dl).filter (fun e => decide (e.1 ∉ ks)) =
      dl.filter (fun e => decide (e.1 ∉ id :: ks)) := by
  rw [removeKey, List.filter_filter]
  apply List.filter_congr
  intro e _
  by_cases h1 : e.1 = id
  · simp [h1]
  · simp [h1]

theorem mem_removeKey {e : String × DownloadRecord} {id : String}
    {dl : List (String × DownloadRecord)} :
    e ∈ removeKey id dl ↔ e ∈ dl ∧ e.1 ≠ id := by
  rw [removeKey]
  simp [List.mem_filter]

theorem nodup_keys_removeKey {dl : List (String × DownloadRecord)}
    (h : (dl.map Prod.fst).Nodup) (id : String) :
    ((removeKey id dl).map Prod.fst).Nodup :=
  ((List.filter_sublist dl).map Prod.fst).nodup h

theorem pairwise_removeKey {P : String × DownloadRecord → String × DownloadRecord → Prop}
    {dl : List (String × DownloadRecord)} (h : dl.Pairwise P) (id : String) :
    (removeKey id dl).Pairwise P :=
  h.sublist (List.filter_sublist dl)

theorem liveMb_congr_remove (dl : List (String × DownloadRecord)) (fs : FS)
    (p : String) (h : ∀ e ∈ dl, e.2.file_path ≠ p) :
    liveMb dl (fsRemove fs p) = liveMb dl fs := by
  induction dl with
  | nil => rfl
  | cons e rest ih =>
    rw [liveMb_cons, liveMb_cons, ih (fun x hx => h x (List.mem_cons_of_mem _ hx))]
    have hne := h e (List.mem_cons_self _ _)
    rw [fsExists, lookup_fsRemove_ne _ hne]
    rfl

theorem lookup_of_mem_nodup {dl : List (String × DownloadRecord)}
    (hnd : (dl.map Prod.fst).Nodup) {id : String} {r : DownloadRecord}
    (h : (id, r) ∈ dl) : dl.lookup id = some r := by
  induction dl with
  | nil => simp at h
  | cons e rest ih =>
    obtain ⟨k, v⟩ := e
    simp only [List.map_cons, List.nodup_cons] at hnd
    rcases List.mem_cons.mp h with he | he
    · rw [← he]
      simp [List.lookup]
    · have hne : id ≠ k := by
        intro hcon
        apply hnd.1
        rw [← hcon]
        simpa using List.mem_map_of_mem Prod.fst he
      have hbeq : (id == k) = false := by simpa using hne
      simp only [List.lookup, hbeq]
      exact ih hnd.2 he

theorem entry_eq_of_nodup_keys {dl : List (String × DownloadRecord)}
    (hnd : (dl.map Prod.fst).Nodup) {id : String} {r1 r2 : DownloadRecord}
    (h1 : (id, r1) ∈ dl) (h2 : (id, r2) ∈ dl) : r1 = r2 := by
  have a1 := lookup_of_mem_nodup hnd h1
  have a2 := lookup_of_mem_nodup hnd h2
  rw [a1] at a2
  exact Option.some.inj a2

theorem liveMb_remove {dl : List (String × DownloadRecord)} (fs : FS)
    {id : String} {r : DownloadRecord}
    (hnd : (dl.map Prod.fst).Nodup)
    (hpw : dl.Pairwise (fun x y => x.2.file_path ≠ y.2.file_path))
    (hmem : (id, r) ∈ dl) (hex : fsExists fs r.file_path = true) :
    liveMb dl fs =
      liveMb (removeKey id dl) (fsRemove fs r.file_path) +
        (r.file_size : Rat) / 1048576 := by
  induction dl with
  | nil => simp at hmem
  | cons e rest ih =>
    rcases List.mem_cons.mp hmem with he | he
    · subst he
      simp only [List.map_cons, List.nodup_cons] at hnd
      rw [List.pairwise_cons] at hpw
      have hkey : removeKey id ((id, r) :: rest) = rest := by
        rw [removeKey, List.filter_cons]
        have hhead : (decide (((id, r) : String × DownloadRecord).1 ≠ id)) = false := by
          simp
        rw [hhead]
        simp only [Bool.false_eq_true, if_false]
        rw [List.filter_eq_self]
        intro x hx
        simp only [decide_eq_true_eq]
        intro hxid
        apply hnd.1
        rw [← hxid]
        simpa using List.mem_map_of_mem Prod.fst hx
      have hpath : ∀ x ∈ rest, x.2.file_path ≠ r.file_path := by
        intro x hx
        exact Ne.symm (hpw.1 x hx)
      rw [hkey, liveMb_cons]
      simp only [hex, if_true]
      rw [liveMb_congr_remove rest fs r.file_path hpath]
      ring
    · simp only [List.map_cons, List.nodup_cons] at hnd
      rw [List.pairwise_cons] at hpw
      have hne : e.1 ≠ id := by
        intro hcon
        apply hnd.1
        rw [hcon]
        simpa using List.mem_map_of_mem Prod.fst he
      have hkey : removeKey id (e :: rest) = e :: removeKey id rest := by
        rw [removeKey, List.filter_cons]
        have hc : (decide (e.1 ≠ id)) = true := by simp [hne]
        rw [hc]
        rfl
      have hpne : e.2.file_path ≠ r.file_path := hpw.1 (id, r) he
      have hcond : fsExists (fsRemove fs r.file_path) e.2.file_path =
          fsExists fs e.2.file_path := by
        rw [fsExists, fsExists, lookup_fsRemove_ne _ hpne]
      rw [hkey, liveMb_cons, liveMb_cons, hcond, ih hnd.2 hpw.2 he]
      ring

theorem storageLoop_main (maxMb : Rat)
    (queue : List (Int × String × DownloadRecord))
    (dl : List (String × DownloadRecord)) (fs : FS)
    (current : Rat) (cnt : Nat) (acc : Rat)
    (hnd : (dl.map Prod.fst).Nodup)
    (hpw : dl.Pairwise (fun x y => x.2.file_path ≠ y.2.file_path))
    (hdr : ∀ e ∈ dl, fsExists fs e.2.file_path = true →
      fsSize fs e.2.file_path = e.2.file_size)
    (hq : ∀ t ∈ queue, (t.2.1, t.2.2) ∈ dl ∧ fsExists fs t.2.2.file_path = true)
    (hqnd : (queue.map (fun t => t.2.1)).Nodup)
    (hcand : ∀ e ∈ dl, fsExists fs e.2.file_path = true →
      ∃ d, (d, e.1, e.2) ∈ queue)
    (hcur : liveMb dl fs ≤ current) :
    ∃ k,
      (storageLoop maxMb queue dl fs current cnt acc).2.2.1 = cnt + k ∧
      (storageLoop maxMb queue dl fs current cnt acc).1 =
        dl.filter (fun e => decide (e.1 ∉ (queue.take k).map (fun t => t.2.1))) ∧
      (liveMb (storageLoop maxMb queue dl fs current cnt acc).1
          (storageLoop maxMb queue dl fs current cnt acc).2.1 ≤ maxMb ∨
        ∀ e ∈ (storageLoop maxMb queue dl fs current cnt acc).1,
          fsExists (storageLoop maxMb queue dl fs current cnt acc).2.1
            e.2.file_path = false) := by
  induction queue generalizing dl fs current cnt acc with
  | nil =>
      refine ⟨0, rfl, by simp [storageLoop], Or.inr ?_⟩
      intro e he
      show fsExists fs e.2.file_path = false
      have he' : e ∈ dl := he
      cases hfe : fsExists fs e.2.file_path with
      | false => rfl
      | true =>
          obtain ⟨d, hd⟩ := hcand e he' hfe
          simp at hd
  | cons t rest ih =>
    obtain ⟨d, id, r⟩ := t
    have hqt0 := hq (d, id, r) (List.mem_cons_self _ _)
    have hmemr : (id, r) ∈ dl := hqt0.1
    have hexr : fsExists fs r.file_path = true := hqt0.2
    by_cases hstop : current ≤ maxMb
    · have hres : storageLoop maxMb ((d, id, r) :: rest) dl fs current cnt acc =
          (dl, fs, cnt, acc) := by
        rw [storageLoop, if_pos hstop]
      refine ⟨0, by rw [hres]; rfl, by rw [hres]; simp, Or.inl ?_⟩
      rw [hres]
      exact le_trans hcur hstop
    · have hres : storageLoop maxMb ((d, id, r) :: rest) dl fs current cnt acc =
          storageLoop maxMb rest (removeKey id dl) (fsRemove fs r.file_path)
            (current - (fsSize fs r.file_path : Rat) / 1048576) (cnt + 1)
            (acc + (fsSize fs r.file_path : Rat) / 1048576) := by
        rw [storageLoop, if_neg hstop, if_pos hexr]
      have hnd' := nodup_keys_removeKey hnd id
      have hpw' := pairwise_removeKey hpw id
      have hdr' : ∀ e ∈ removeKey id dl,
          fsExists (fsRemove fs r.file_path) e.2.file_path = true →
          fsSize (fsRemove fs r.file_path) e.2.file_path = e.2.file_size := by
        intro e he hex'
        have hedl : e ∈ dl := (mem_removeKey.mp he).1
        have hne : e.2.file_path ≠ r.file_path := by
          intro hcon
          rw [fsExists, hcon, lookup_fsRemove_self] at hex'
          simp at hex'
        have hsz : fsSize (fsRemove fs r.file_path) e.2.file_path =
            fsSize fs e.2.file_path := by
          rw [fsSize, fsSize, lookup_fsRemove_ne _ hne]
        have hex0 : fsExists fs e.2.file_path = true := by
          rw [fsExists, lookup_fsRemove_ne _ hne] at hex'
          exact hex'
        rw [hsz]
        exact hdr e hedl hex0
      have hsymm : Symmetric
          (fun x y : String × DownloadRecord => x.2.file_path ≠ y.2.file_path) :=
        fun x y h => Ne.symm h
      have hq' : ∀ t ∈ rest, (t.2.1, t.2.2) ∈ removeKey id dl ∧
          fsExists (fsRemove fs r.file_path) t.2.2.file_path = true := by
        intro t ht
        have hqt := hq t (List.mem_cons_of_mem _ ht)
        have hne_id : t.2.1 ≠ id := by
          intro hcon
          simp only [List.map_cons, List.nodup_cons] at hqnd
          apply hqnd.1
          rw [← hcon]
          exact List.mem_map_of_mem (fun t => t.2.1) ht
        have hmem' : (t.2.1, t.2.2) ∈ removeKey id dl :=
          mem_removeKey.mpr ⟨hqt.1, hne_id⟩
        have hentry_ne : ((t.2.1, t.2.2) : String × DownloadRecord) ≠ (id, r) := by
          intro hcon
          exact hne_id (congrArg Prod.fst hcon)
        have hpne : t.2.2.file_path ≠ r.file_path :=
          hpw.forall hsymm hqt.1 hmemr hentry_ne
        refine ⟨hmem', ?_⟩
        rw [fsExists, lookup_fsRemove_ne _ hpne]
        exact hqt.2
      have hqnd' : (rest.map (fun t => t.2.1)).Nodup := by
        simp only [List.map_cons, List.nodup_cons] at hqnd
        exact hqnd.2
      have hcand' : ∀ e ∈ removeKey id dl,
          fsExists (fsRemove fs r.file_path) e.2.file_path = true →
          ∃ d', (d', e.1, e.2) ∈ rest := by
        intro e he hex'
        have hedl := (mem_removeKey.mp he).1
        have hne_id := (mem_removeKey.mp he).2
        have hne_path : e.2.file_path ≠ r.file_path := by
          intro hcon
          rw [fsExists, hcon, lookup_fsRemove_self] at hex'
          simp at hex'
        have hex0 : fsExists fs e.2.file_path = true := by
          rw [fsExists, lookup_fsRemove_ne _ hne_path] at hex'
          exact hex'
        obtain ⟨d', hd'⟩ := hcand e hedl hex0
        rcases List.mem_cons.mp hd' with hh | hh
        · exfalso
          apply hne_id
          have := congrArg (fun t : Int × String × DownloadRecord => t.2.1) hh
          simpa using this
        · exact ⟨d', hh⟩
      have hm_eq : (fsSize fs r.file_path : Rat) / 1048576 =
          (r.file_size : Rat) / 1048576 := by
        rw [hdr (id, r) hmemr hexr]
      have hmr := liveMb_remove fs hnd hpw hmemr hexr
      have hcur' : liveMb (removeKey id dl) (fsRemove fs r.file_path) ≤
          current - (fsSize fs r.file_path : Rat) / 1048576 := by
        rw [hm_eq]
        linarith [hmr, hcur]
      obtain ⟨k', hk1, hk2, hk3⟩ := ih (removeKey id dl) (fsRemove fs r.file_path)
        (current - (fsSize fs r.file_path : Rat) / 1048576) (cnt + 1)
        (acc + (fsSize fs r.file_path : Rat) / 1048576)
        hnd' hpw' hdr' hq' hqnd' hcand' hcur'
      refine ⟨k' + 1, ?_, ?_, ?_⟩
      · rw [hres, hk1]
        omega
      · rw [hres, hk2, List.take_succ_cons, List.map_cons,
          removeKey_filter_notmem]
      · rw [hres]
        exact hk3

/-- C4 (amended): provided every tracked record whose file exists has its
recorded `file_size` equal to the file's on-disk size (no size drift) and
tracked records have pairwise-distinct file paths: if the live total size is
at most `maxStorageMb` when `cleanup_by_storage_limit` is called, the call
is a no-op returning `(0, 0.0)` and changes nothing; otherwise, when it
returns, the recomputed live total size is at most `maxStorageMb` or no
record with an existing file remains, and the removed records are exactly
the first `removedCount` entries of the existing-file candidates sorted
oldest-first by download date. -/
theorem cleanup_by_storage_limit_correct (pd : String → Int) (maxMb : Rat)
    (td : TrackingData) (fs : FS) (ps : PState)
    (hnd : (td.downloads.map Prod.fst).Nodup)
    (hpw : td.downloads.Pairwise (fun x y => x.2.file_path ≠ y.2.file_path))
    (hdr : ∀ e ∈ td.downloads, fsExists fs e.2.file_path = true →
      fsSize fs e.2.file_path = e.2.file_size) :
    ((getStorageStats td fs).total_size_mb ≤ maxMb →
      cleanupByStorageLimit pd maxMb td fs ps = (td, fs, ps, 0, 0)) ∧
    (¬ (getStorageStats td fs).total_size_mb ≤ maxMb →
      ((getStorageStats (cleanupByStorageLimit pd maxMb td fs ps).1
          (cleanupByStorageLimit pd maxMb td fs ps).2.1).total_size_mb ≤ maxMb ∨
        ∀ e ∈ (cleanupByStorageLimit pd maxMb td fs ps).1.downloads,
          fsExists (cleanupByStorageLimit pd maxMb td fs ps).2.1 e.2.file_path = false) ∧
      (cleanupByStorageLimit pd maxMb td fs ps).1.downloads =
        td.downloads.filter (fun e => decide (e.1 ∉
          ((sortByDate ((td.downloads.filter (fun e => fsExists fs e.2.file_path)).map (fun e => (pd e.2.download_date, e.1, e.2)))).take (cleanupByStorageLimit pd maxMb td fs ps).2.2.2.1).map (fun t => t.2.1))) ∧
      (sortByDate ((td.downloads.filter (fun e => fsExists fs e.2.file_path)).map (fun e => (pd e.2.download_date, e.1, e.2)))).Pairwise (fun x y => x.1 ≤ y.1)) := by
  constructor
  · intro hle
    simp [cleanupByStorageLimit, hle]
  · intro hle
    have hperm := sortByDate_perm ((td.downloads.filter
      (fun e => fsExists fs e.2.file_path)).map
      (fun e => (pd e.2.download_date, e.1, e.2)))
    have hq : ∀ t ∈ sortByDate ((td.downloads.filter
          (fun e => fsExists fs e.2.file_path)).map
          (fun e => (pd e.2.download_date, e.1, e.2))),
        (t.2.1, t.2.2) ∈ td.downloads ∧ fsExists fs t.2.2.file_path = true := by
      intro t ht
      have htc := hperm.mem_iff.mp ht
      obtain ⟨e, he, heq⟩ := List.mem_map.mp htc
      obtain ⟨e1, e2⟩ := e
      have h21 : t.2.1 = e1 := by rw [← heq]
      have h22 : t.2.2 = e2 := by rw [← heq]
      rw [h21, h22]
      exact ⟨List.mem_of_mem_filter he, by simpa using List.of_mem_filter he⟩
    have hqnd : ((sortByDate ((td.downloads.filter
          (fun e => fsExists fs e.2.file_path)).map
          (fun e => (pd e.2.download_date, e.1, e.2)))).map
        (fun t => t.2.1)).Nodup := by
      have hpm := hperm.map (fun t : Int × String × DownloadRecord => t.2.1)
      rw [List.map_map] at hpm
      have hfn : ((td.downloads.filter (fun e => fsExists fs e.2.file_path)).map
          ((fun t : Int × String × DownloadRecord => t.2.1) ∘
            (fun e : String × DownloadRecord =>
              (pd e.2.download_date, e.1, e.2)))).Nodup := by
        have hcomp : ((fun t : Int × String × DownloadRecord => t.2.1) ∘
            (fun e : String × DownloadRecord =>
              (pd e.2.download_date, e.1, e.2))) =
            (Prod.fst : String × DownloadRecord → String) := rfl
        rw [hcomp]
        exact ((List.filter_sublist _).map Prod.fst).nodup hnd
      exact hpm.nodup_iff.mpr hfn
    have hcand : ∀ e ∈ td.downloads, fsExists fs e.2.file_path = true →
        ∃ d, (d, e.1, e.2) ∈ sortByDate ((td.downloads.filter
          (fun e => fsExists fs e.2.file_path)).map
          (fun e => (pd e.2.download_date, e.1, e.2))) := by
      intro e he hex
      refine ⟨pd e.2.download_date, ?_⟩
      apply hperm.mem_iff.mpr
      apply List.mem_map.mpr
      exact ⟨e, List.mem_filter.mpr ⟨he, by simpa using hex⟩, rfl⟩
    have hcur : liveMb td.downloads fs ≤ (getStorageStats td fs).total_size_mb :=
      le_of_eq (getStorageStats_total td fs).symm
    obtain ⟨k, hk1, hk2, hk3⟩ := storageLoop_main maxMb
      (sortByDate ((td.downloads.filter (fun e => fsExists fs e.2.file_path)).map
        (fun e => (pd e.2.download_date, e.1, e.2))))
      td.downloads fs (getStorageStats td fs).total_size_mb 0 0
      hnd hpw hdr hq hqnd hcand hcur
    have hdl : (cleanupByStorageLimit pd maxMb td fs ps).1.downloads =
        (storageLoop maxMb (sortByDate ((td.downloads.filter (fun e => fsExists fs e.2.file_path)).map (fun e => (pd e.2.download_date, e.1, e.2)))) td.downloads fs (getStorageStats td fs).total_size_mb 0 0).1 := by
      simp [cleanupByStorageLimit, hle]
    have hfs2 : (cleanupByStorageLimit pd maxMb td fs ps).2.1 =
        (storageLoop maxMb (sortByDate ((td.downloads.filter (fun e => fsExists fs e.2.file_path)).map (fun e => (pd e.2.download_date, e.1, e.2)))) td.downloads fs (getStorageStats td fs).total_size_mb 0 0).2.1 := by
      simp [cleanupByStorageLimit, hle]
    have hcnt : (cleanupByStorageLimit pd maxMb td fs ps).2.2.2.1 =
        (storageLoop maxMb (sortByDate ((td.downloads.filter (fun e => fsExists fs e.2.file_path)).map (fun e => (pd e.2.download_date, e.1, e.2)))) td.downloads fs (getStorageStats td fs).total_size_mb 0 0).2.2.1 := by
      simp [cleanupByStorageLimit, hle]
    refine ⟨?_, ?_, sortByDate_sorted _⟩
    · rcases hk3 with h | h
      · left
        rw [getStorageStats_total, hdl, hfs2]
        exact h
      · right
        intro e he
        rw [hdl] at he
        rw [hfs2]
        exact h e he
    · rw [hdl, hcnt, hk1, Nat.zero_add, hk2]

/-- C4 counterexample record A: recorded size 0, on-disk size 100 MiB, the
older record. -/
def c4recA : DownloadRecord :=
  { edicto_id := "e1", filename := "f1", download_date := "d", file_size := 0,
    file_path := "p1" }

/-- C4 counterexample record B: recorded size = on-disk size = 60 MiB, the
newer record. -/
def c4recB : DownloadRecord :=
  { edicto_id := "e2", filename := "f2", download_date := "dd",
    file_size := 62914560, file_path := "p2" }

/-- C4 counterexample store. -/
def c4td : TrackingData :=
  { version := "1.0", created := none, last_updated := "t",
    downloads := [("e1", c4recA), ("e2", c4recB)],
    statistics := { total_downloads := 2, total_size_mb := 60,
                    last_cleanup := none, last_compression := none } }

/-- C4 counterexample filesystem: `p1` is 100 MiB on disk though recorded as
0 bytes. -/
def c4fs : FS :=
  [("p1", { size := 104857600, digest := "h1" }),
   ("p2", { size := 62914560, digest := "h2" })]

/-- C4 counterexample persistence state. -/
def c4ps : PState :=
  { tracking := none, backups := [], corruptBackups := [], tmp := none,
    backupDirExists := true }

/-- C4 (counterexample): when a record's recorded `file_size` drifts from
the on-disk size, `cleanup_by_storage_limit(50)` can return with the live
total still above the limit and a record with an existing file remaining:
the running total starts from recorded sizes (here 60 MB) but subtracts
on-disk sizes (here 100 MiB for the oldest record), so it dips under the
limit after one eviction while 60 MB of tracked, existing files remain. -/
theorem storage_limit_drift_counterexample :
    ¬ ((getStorageStats c4td c4fs).total_size_mb ≤ 50) ∧
    ¬ ((getStorageStats (cleanupByStorageLimit (fun s => (s.length : Int)) 50 c4td c4fs c4ps).1 (cleanupByStorageLimit (fun s => (s.length : Int)) 50 c4td c4fs c4ps).2.1).total_size_mb ≤ 50) ∧
    ("e2", c4recB) ∈ (cleanupByStorageLimit (fun s => (s.length : Int)) 50 c4td c4fs c4ps).1.downloads ∧
    fsExists (cleanupByStorageLimit (fun s => (s.length : Int)) 50 c4td c4fs c4ps).2.1 c4recB.file_path = true := by
  have hl1 : ("d" : String).length = 1 := rfl
  have hl2 : ("dd" : String).length = 2 := rfl
  have hb11 : (("p1" : String) == "p1") = true := by decide
  have hb21 : (("p2" : String) == "p1") = false := by decide
  have hb22 : (("p2" : String) == "p2") = true := by decide
  have hne21 : ¬ (("p2" : String) = "p1") := by decide
  have hnee : ¬ (("e2" : String) = "e1") := by decide
  have hsd : strLe "d" "dd" = true := by decide
  have hn1 : (["d", "dd"] : List String) ≠ [] := by decide
  have hn2 : (["dd"] : List String) ≠ [] := by decide
  refine ⟨?_, ?_, ?_, ?_⟩ <;>
    norm_num [cleanupByStorageLimit, getStorageStats, statsStep, sortByDate,
      insertByDate, sortStr, insertSortedStr, storageLoop, fsExists, fsSize,
      fsRemove, removeKey, c4td, c4fs, c4recA, c4recB, c4ps, List.lookup,
      List.filter_cons, hl1, hl2, hb11, hb21, hb22, hne21, hnee, hsd, hn1, hn2]

/-- C4 witness record: drift-free, 1 MiB recorded and on disk. -/
def c4wrec : DownloadRecord :=
  { edicto_id := "e1", filename := "f1", download_date := "d",
    file_size := 1048576, file_path := "p1" }

/-- C4 witness store. -/
def c4wtd : TrackingData :=
  { version := "1.0", created := none, last_updated := "t",
    downloads := [("e1", c4wrec)],
    statistics := { total_downloads := 1, total_size_mb := 1,
                    last_cleanup := none, last_compression := none } }

/-- C4 witness filesystem. -/
def c4wfs : FS := [("p1", { size := 1048576, digest := "h" })]

/-- Witness for `cleanup_by_storage_limit_correct` at a concrete drift-free
store. -/
theorem cleanup_by_storage_limit_correct_witness :
    ((getStorageStats c4wtd c4wfs).total_size_mb ≤ 50 →
      cleanupByStorageLimit (fun s => (s.length : Int)) 50 c4wtd c4wfs c4ps = (c4wtd, c4wfs, c4ps, 0, 0)) ∧
    (¬ (getStorageStats c4wtd c4wfs).total_size_mb ≤ 50 →
      ((getStorageStats (cleanupByStorageLimit (fun s => (s.length : Int)) 50 c4wtd c4wfs c4ps).1
          (cleanupByStorageLimit (fun s => (s.length : Int)) 50 c4wtd c4wfs c4ps).2.1).total_size_mb ≤ 50 ∨
        ∀ e ∈ (cleanupByStorageLimit (fun s => (s.length : Int)) 50 c4wtd c4wfs c4ps).1.downloads,
          fsExists (cleanupByStorageLimit (fun s => (s.length : Int)) 50 c4wtd c4wfs c4ps).2.1 e.2.file_path = false) ∧
      (cleanupByStorageLimit (fun s => (s.length : Int)) 50 c4wtd c4wfs c4ps).1.downloads =
        c4wtd.downloads.filter (fun e => decide (e.1 ∉
          ((sortByDate ((c4wtd.downloads.filter (fun e => fsExists c4wfs e.2.file_path)).map (fun e => ((fun s : String => (s.length : Int)) e.2.download_date, e.1, e.2)))).take (cleanupByStorageLimit (fun s => (s.length : Int)) 50 c4wtd c4wfs c4ps).2.2.2.1).map (fun t => t.2.1))) ∧
      (sortByDate ((c4wtd.downloads.filter (fun e => fsExists c4wfs e.2.file_path)).map (fun e => ((fun s : String => (s.length : Int)) e.2.download_date, e.1, e.2)))).Pairwise (fun x y => x.1 ≤ y.1)) :=
  cleanup_by_storage_limit_correct (fun s => (s.length : Int)) 50 c4wtd c4wfs c4ps
    (by decide) (by decide) (by decide)

theorem lookup_fsWrite_self (fs : FS) (p : String) (i : FileInfo) :
    (fsWrite fs p i).lookup p = some i := by
  simp [fsWrite, List.lookup]

theorem fsExists_fsWrite_self (fs : FS) (p : String) (i : FileInfo) :
    fsExists (fsWrite fs p i) p = true := by
  rw [fsExists, lookup_fsWrite_self]
  rfl

theorem lookup_fsWrite_ne (fs : FS) {p q : String} (i : FileInfo) (h : p ≠ q) :
    (fsWrite fs q i).lookup p = fs.lookup p := by
  have hbeq : (p == q) = false := by simpa using h
  simp only [fsWrite, List.lookup, hbeq]
  exact lookup_fsRemove_ne fs h

theorem lookup_setKey_ne (dl : List (String × DownloadRecord)) {k id : String}
    (v : DownloadRecord) (h : k ≠ id) :
    (setKey id v dl).lookup k = dl.lookup k := by
  induction dl with
  | nil => rfl
  | cons e rest ih =>
    obtain ⟨a, b⟩ := e
    by_cases ha : a = id
    · subst ha
      have hstep : setKey a v ((a, b) :: rest) = (a, v) :: setKey a v rest := by
        simp [setKey]
      have hbeq : (k == a) = false := by simpa using h
      rw [hstep]
      simp only [List.lookup, hbeq]
      exact ih
    · have hstep : setKey id v ((a, b) :: rest) = (a, b) :: setKey id v rest := by
        simp [setKey, ha]
      rw [hstep]
      by_cases hk : k = a
      · subst hk
        simp [List.lookup]
      · have hbeq : (k == a) = false := by simpa using hk
        simp only [List.lookup, hbeq]
        exact ih

theorem lookup_setKey_self (dl : List (String × DownloadRecord)) (id : String)
    (v : DownloadRecord) (h : (dl.lookup id).isSome = true) :
    (setKey id v dl).lookup id = some v := by
  induction dl with
  | nil => simp [List.lookup] at h
  | cons e rest ih =>
    obtain ⟨a, b⟩ := e
    by_cases ha : a = id
    · subst ha
      have hstep : setKey a v ((a, b) :: rest) = (a, v) :: setKey a v rest := by
        simp [setKey]
      rw [hstep]
      simp [List.lookup]
    · have hstep : setKey id v ((a, b) :: rest) = (a, b) :: setKey id v rest := by
        simp [setKey, ha]
      have hbeq : (id == a) = false := by
        simpa using fun hcon => ha hcon.symm
      rw [hstep]
      simp only [List.lookup, hbeq]
      simp only [List.lookup, hbeq] at h
      exact ih h

theorem compressLoop_cons_skip (gz : FileInfo → FileInfo) (gzFail : String → Bool)
    (pd : String → Int) (cutoff : Int) (id0 : String) (r0 : DownloadRecord)
    (rest dl : List (String × DownloadRecord)) (fs : FS) (cnt : Nat) (saved : Rat)
    (tr : List Ev) (h1 : (r0.compressed || !(fsExists fs r0.file_path)) = true) :
    compressLoop gz gzFail pd cutoff ((id0, r0) :: rest) dl fs cnt saved tr =
      compressLoop gz gzFail pd cutoff rest dl fs cnt saved tr := by
  rw [compressLoop, if_pos h1]

theorem compressLoop_cons_notexp (gz : FileInfo → FileInfo) (gzFail : String → Bool)
    (pd : String → Int) (cutoff : Int) (id0 : String) (r0 : DownloadRecord)
    (rest dl : List (String × DownloadRecord)) (fs : FS) (cnt : Nat) (saved : Rat)
    (tr : List Ev) (h1 : (r0.compressed || !(fsExists fs r0.file_path)) = false)
    (h2 : ¬ pd r0.download_date < cutoff) :
    compressLoop gz gzFail pd cutoff ((id0, r0) :: rest) dl fs cnt saved tr =
      compressLoop gz gzFail pd cutoff rest dl fs cnt saved tr := by
  rw [compressLoop, if_neg (by simp [h1]), if_neg h2]

theorem compressLoop_cons_fail (gz : FileInfo → FileInfo) (gzFail : String → Bool)
    (pd : String → Int) (cutoff : Int) (id0 : String) (r0 : DownloadRecord)
    (rest dl : List (String × DownloadRecord)) (fs : FS) (cnt : Nat) (saved : Rat)
    (tr : List Ev) (h1 : (r0.compressed || !(fsExists fs r0.file_path)) = false)
    (h2 : pd r0.download_date < cutoff)
    (h3 : gzFail (r0.file_path ++ ".gz") = true) :
    compressLoop gz gzFail pd cutoff ((id0, r0) :: rest) dl fs cnt saved tr =
      (dl, fs, cnt, saved, tr, false) := by
  rw [compressLoop, if_neg (by simp [h1]), if_pos h2]
  simp only []
  rw [if_pos h3]

theorem compressLoop_cons_main (gz : FileInfo → FileInfo) (gzFail : String → Bool)
    (pd : String → Int) (cutoff : Int) (id0 : String) (r0 : DownloadRecord)
    (rest dl : List (String × DownloadRecord)) (fs : FS) (cnt : Nat) (saved : Rat)
    (tr : List Ev) (h1 : (r0.compressed || !(fsExists fs r0.file_path)) = false)
    (h2 : pd r0.download_date < cutoff)
    (h3 : gzFail (r0.file_path ++ ".gz") = false) :
    compressLoop gz gzFail pd cutoff ((id0, r0) :: rest) dl fs cnt saved tr =
      compressLoop gz gzFail pd cutoff rest
        (setKey id0 { r0 with
          file_path := r0.file_path ++ ".gz",
          compressed := true,
          file_size := fsSize (fsWrite fs (r0.file_path ++ ".gz")
            (gzOutput gz fs r0.file_path)) (r0.file_path ++ ".gz") } dl)
        (fsRemove (fsWrite fs (r0.file_path ++ ".gz") (gzOutput gz fs r0.file_path))
          r0.file_path)
        (cnt + 1)
        (saved + ((fsSize fs r0.file_path : Rat) -
          (fsSize (fsWrite fs (r0.file_path ++ ".gz") (gzOutput gz fs r0.file_path))
            (r0.file_path ++ ".gz") : Rat)) / 1048576)
        ((tr ++ [Ev.wrote (r0.file_path ++ ".gz")]) ++ [Ev.removed r0.file_path]) := by
  rw [compressLoop, if_neg (by simp [h1]), if_pos h2]
  simp only []
  rw [if_neg (by simp [h3]),
    if_pos (fsExists_fsWrite_self fs (r0.file_path ++ ".gz") (gzOutput gz fs r0.file_path))]

theorem removeSafe_nil : removeSafe [] := by
  intro p l1 l2 h
  exact absurd h (by simp)

theorem removeSafe_append_wrote {xs : List Ev} (q : String) (h : removeSafe xs) :
    removeSafe (xs ++ [Ev.wrote q]) := by
  intro p l1 l2 hsplit
  rcases List.append_eq_append_iff.mp hsplit with ⟨a', ha1, ha2⟩ | ⟨c', hc1, hc2⟩
  · cases a' with
    | nil => simp at ha2
    | cons x t =>
        rw [List.cons_append] at ha2
        injection ha2 with hx ht
        simp at ht
  · cases c' with
    | nil => simp at hc2
    | cons x t =>
        rw [List.cons_append] at hc2
        injection hc2 with hx ht
        rw [← hx] at hc1
        exact h p l1 t hc1

theorem removeSafe_append_pair {xs : List Ev} (p0 : String) (h : removeSafe xs) :
    removeSafe ((xs ++ [Ev.wrote (p0 ++ ".gz")]) ++ [Ev.removed p0]) := by
  rw [List.append_assoc]
  intro p l1 l2 hsplit
  rcases List.append_eq_append_iff.mp hsplit with ⟨a', ha1, ha2⟩ | ⟨c', hc1, hc2⟩
  · cases a' with
    | nil => simp at ha2
    | cons x t =>
        rw [List.cons_append] at ha2
        injection ha2 with hx ht
        cases t with
        | nil =>
            simp only [List.nil_append] at ht
            injection ht with hy ht2
            injection hy with hp
            rw [ha1, ← hx, ← hp]
            exact List.mem_append_right xs (List.mem_cons_self _ _)
        | cons y t2 =>
            injection ht with hy ht2
            simp at ht2
  · cases c' with
    | nil => simp at hc2
    | cons x t =>
        rw [List.cons_append] at hc2
        injection hc2 with hx ht
        rw [← hx] at hc1
        exact h p l1 t hc1

theorem strAppend_cancel_right {a b c : String} (h : a ++ c = b ++ c) : a = b := by
  obtain ⟨as⟩ := a
  obtain ⟨bs⟩ := b
  obtain ⟨cs⟩ := c
  have h' : as ++ cs = bs ++ cs := congrArg String.data h
  have h'' : as = bs := List.append_cancel_right h'
  rw [h'']

theorem compressLoop_trace_safe (gz : FileInfo → FileInfo) (gzFail : String → Bool)
    (pd : String → Int) (cutoff : Int) (es : List (String × DownloadRecord)) :
    ∀ dl fs cnt saved tr, removeSafe tr →
      removeSafe (compressLoop gz gzFail pd cutoff es dl fs cnt saved tr).2.2.2.2.1 := by
  induction es with
  | nil => intro dl fs cnt saved tr h; exact h
  | cons e0 rest ih =>
    obtain ⟨id0, r0⟩ := e0
    intro dl fs cnt saved tr h
    by_cases h1 : (r0.compressed || !(fsExists fs r0.file_path)) = true
    · rw [compressLoop_cons_skip gz gzFail pd cutoff id0 r0 rest dl fs cnt saved tr h1]
      exact ih _ _ _ _ _ h
    · have h1' : (r0.compressed || !(fsExists fs r0.file_path)) = false := by
        simpa using h1
      by_cases h2 : pd r0.download_date < cutoff
      · by_cases h3 : gzFail (r0.file_path ++ ".gz") = true
        · rw [compressLoop_cons_fail gz gzFail pd cutoff id0 r0 rest dl fs cnt
            saved tr h1' h2 h3]
          exact h
        · have h3' : gzFail (r0.file_path ++ ".gz") = false := by simpa using h3
          rw [compressLoop_cons_main gz gzFail pd cutoff id0 r0 rest dl fs cnt
            saved tr h1' h2 h3']
          exact ih _ _ _ _ _ (removeSafe_append_pair r0.file_path h)
      · rw [compressLoop_cons_notexp gz gzFail pd cutoff id0 r0 rest dl fs cnt
          saved tr h1' h2]
        exact ih _ _ _ _ _ h

theorem compressLoop_lookup_frame (gz : FileInfo → FileInfo) (gzFail : String → Bool)
    (pd : String → Int) (cutoff : Int) (es : List (String × DownloadRecord))
    (k : String) :
    ∀ dl fs cnt saved tr, k ∉ es.map Prod.fst →
      (compressLoop gz gzFail pd cutoff es dl fs cnt saved tr).1.lookup k =
        dl.lookup k := by
  induction es with
  | nil => intro dl fs cnt saved tr _; rfl
  | cons e0 rest ih =>
    obtain ⟨id0, r0⟩ := e0
    intro dl fs cnt saved tr hk
    simp only [List.map_cons, List.mem_cons, not_or] at hk
    by_cases h1 : (r0.compressed || !(fsExists fs r0.file_path)) = true
    · rw [compressLoop_cons_skip gz gzFail pd cutoff id0 r0 rest dl fs cnt saved tr h1]
      exact ih _ _ _ _ _ hk.2
    · have h1' : (r0.compressed || !(fsExists fs r0.file_path)) = false := by
        simpa using h1
      by_cases h2 : pd r0.download_date < cutoff
      · by_cases h3 : gzFail (r0.file_path ++ ".gz") = true
        · rw [compressLoop_cons_fail gz gzFail pd cutoff id0 r0 rest dl fs cnt
            saved tr h1' h2 h3]
        · have h3' : gzFail (r0.file_path ++ ".gz") = false := by simpa using h3
          rw [compressLoop_cons_main gz gzFail pd cutoff id0 r0 rest dl fs cnt
            saved tr h1' h2 h3']
          rw [ih _ _ _ _ _ hk.2]
          exact lookup_setKey_ne dl _ hk.1
      · rw [compressLoop_cons_notexp gz gzFail pd cutoff id0 r0 rest dl fs cnt
          saved tr h1' h2]
        exact ih _ _ _ _ _ hk.2

theorem compressLoop_fsInfo_frame (gz : FileInfo → FileInfo) (gzFail : String → Bool)
    (pd : String → Int) (cutoff : Int) (es : List (String × DownloadRecord))
    (p : String) :
    ∀ dl fs cnt saved tr,
      (∀ e ∈ es, e.2.file_path ≠ p) →
      (∀ e ∈ es, e.2.file_path ++ ".gz" ≠ p) →
      fsInfo (compressLoop gz gzFail pd cutoff es dl fs cnt saved tr).2.1 p =
        fsInfo fs p := by
  induction es with
  | nil => intro dl fs cnt saved tr _ _; rfl
  | cons e0 rest ih =>
    obtain ⟨id0, r0⟩ := e0
    intro dl fs cnt saved tr hp1 hp2
    have hp1h : r0.file_path ≠ p := hp1 (id0, r0) (List.mem_cons_self _ _)
    have hp2h : r0.file_path ++ ".gz" ≠ p := hp2 (id0, r0) (List.mem_cons_self _ _)
    have hp1' : ∀ e ∈ rest, e.2.file_path ≠ p :=
      fun e he => hp1 e (List.mem_cons_of_mem _ he)
    have hp2' : ∀ e ∈ rest, e.2.file_path ++ ".gz" ≠ p :=
      fun e he => hp2 e (List.mem_cons_of_mem _ he)
    by_cases h1 : (r0.compressed || !(fsExists fs r0.file_path)) = true
    · rw [compressLoop_cons_skip gz gzFail pd cutoff id0 r0 rest dl fs cnt saved tr h1]
      exact ih _ _ _ _ _ hp1' hp2'
    · have h1' : (r0.compressed || !(fsExists fs r0.file_path)) = false := by
        simpa using h1
      by_cases h2 : pd r0.download_date < cutoff
      · by_cases h3 : gzFail (r0.file_path ++ ".gz") = true
        · rw [compressLoop_cons_fail gz gzFail pd cutoff id0 r0 rest dl fs cnt
            saved tr h1' h2 h3]
        · have h3' : gzFail (r0.file_path ++ ".gz") = false := by simpa using h3
          rw [compressLoop_cons_main gz gzFail pd cutoff id0 r0 rest dl fs cnt
            saved tr h1' h2 h3']
          rw [ih _ _ _ _ _ hp1' hp2']
          rw [fsInfo, lookup_fsRemove_ne _ (Ne.symm hp1h),
            lookup_fsWrite_ne _ _ (Ne.symm hp2h)]
          rfl
      · rw [compressLoop_cons_notexp gz gzFail pd cutoff id0 r0 rest dl fs cnt
          saved tr h1' h2]
        exact ih _ _ _ _ _ hp1' hp2'

theorem fsExists_eq_isSome_fsInfo (fs : FS) (p : String) :
    fsExists fs p = (fsInfo fs p).isSome := rfl

theorem compressLoop_eligible (gz : FileInfo → FileInfo) (pd : String → Int)
    (cutoff : Int) (es : List (String × DownloadRecord)) :
    ∀ dl fs cnt saved tr (id : String) (r : DownloadRecord) (i : FileInfo),
      (id, r) ∈ es →
      (es.map Prod.fst).Nodup →
      es.Pairwise (fun x y => x.2.file_path ≠ y.2.file_path) →
      (∀ e1 ∈ es, ∀ e2 ∈ es, e1.2.file_path ++ ".gz" ≠ e2.2.file_path) →
      (dl.lookup id).isSome = true →
      r.compressed = false →
      fsInfo fs r.file_path = some i →
      pd r.download_date < cutoff →
      ((compressLoop gz (fun _ => false) pd cutoff es dl fs cnt saved tr).1.lookup id =
          some { r with
            file_path := r.file_path ++ ".gz",
            compressed := true,
            file_size := (gz i).size } ∧
        fsExists (compressLoop gz (fun _ => false) pd cutoff es dl fs cnt saved tr).2.1
          r.file_path = false ∧
        fsInfo (compressLoop gz (fun _ => false) pd cutoff es dl fs cnt saved tr).2.1
          (r.file_path ++ ".gz") = some (gz i)) := by
  induction es with
  | nil =>
      intro dl fs cnt saved tr id r i hmem _ _ _ _ _ _ _
      simp at hmem
  | cons e0 rest ih =>
    intro dl fs cnt saved tr id r i hmem hnd hpw hgz hdl hcomp hfi hexp
    obtain ⟨id0, r0⟩ := e0
    simp only [List.map_cons, List.nodup_cons] at hnd
    rw [List.pairwise_cons] at hpw
    rcases List.mem_cons.mp hmem with he | he
    · injection he with hid hr
      subst hid
      subst hr
      have hex0 : fsExists fs r.file_path = true := by
        have hfi' : List.lookup r.file_path fs = some i := hfi
        rw [fsExists, hfi']
        rfl
      have hc1 : (r.compressed || !(fsExists fs r.file_path)) = false := by
        rw [hcomp, hex0]
        rfl
      have hout : gzOutput gz fs r.file_path = gz i := by rw [gzOutput, hfi]
      have hsize : fsSize (fsWrite fs (r.file_path ++ ".gz")
          (gzOutput gz fs r.file_path)) (r.file_path ++ ".gz") = (gz i).size := by
        rw [fsSize, lookup_fsWrite_self, hout]
      rw [compressLoop_cons_main gz (fun _ => false) pd cutoff id r rest dl fs cnt
        saved tr hc1 hexp rfl]
      have hfr1 : ∀ e ∈ rest, e.2.file_path ≠ r.file_path :=
        fun e hee => Ne.symm (hpw.1 e hee)
      have hfr2 : ∀ e ∈ rest, e.2.file_path ++ ".gz" ≠ r.file_path :=
        fun e hee => hgz e (List.mem_cons_of_mem _ hee) (id, r) (List.mem_cons_self _ _)
      have hfg1 : ∀ e ∈ rest, e.2.file_path ≠ r.file_path ++ ".gz" :=
        fun e hee => Ne.symm
          (hgz (id, r) (List.mem_cons_self _ _) e (List.mem_cons_of_mem _ hee))
      have hfg2 : ∀ e ∈ rest, e.2.file_path ++ ".gz" ≠ r.file_path ++ ".gz" := by
        intro e hee hcon
        exact (hpw.1 e hee) (strAppend_cancel_right hcon).symm
      have hgzself : r.file_path ++ ".gz" ≠ r.file_path :=
        hgz (id, r) (List.mem_cons_self _ _) (id, r) (List.mem_cons_self _ _)
      refine ⟨?_, ?_, ?_⟩
      · rw [compressLoop_lookup_frame gz (fun _ => false) pd cutoff rest id _ _ _ _ _
          hnd.1]
        rw [lookup_setKey_self dl id _ hdl, hsize]
      · have hnone : fsInfo (fsRemove (fsWrite fs (r.file_path ++ ".gz")
            (gzOutput gz fs r.file_path)) r.file_path) r.file_path = none :=
          lookup_fsRemove_self _ _
        rw [fsExists_eq_isSome_fsInfo,
          compressLoop_fsInfo_frame gz (fun _ => false) pd cutoff rest r.file_path
            _ _ _ _ _ hfr1 hfr2, hnone]
        rfl
      · have hstep2 : fsInfo (fsRemove (fsWrite fs (r.file_path ++ ".gz")
            (gzOutput gz fs r.file_path)) r.file_path) (r.file_path ++ ".gz") =
            some (gz i) := by
          show (fsRemove (fsWrite fs (r.file_path ++ ".gz")
            (gzOutput gz fs r.file_path)) r.file_path).lookup (r.file_path ++ ".gz") =
            some (gz i)
          rw [lookup_fsRemove_ne _ hgzself, lookup_fsWrite_self, hout]
        rw [compressLoop_fsInfo_frame gz (fun _ => false) pd cutoff rest
          (r.file_path ++ ".gz") _ _ _ _ _ hfg1 hfg2]
        exact hstep2
    · have hne_id : id ≠ id0 := by
        intro hcon
        apply hnd.1
        rw [← hcon]
        simpa using List.mem_map_of_mem Prod.fst he
      have hgz' : ∀ e1 ∈ rest, ∀ e2 ∈ rest, e1.2.file_path ++ ".gz" ≠ e2.2.file_path :=
        fun e1 h1 e2 h2 =>
          hgz e1 (List.mem_cons_of_mem _ h1) e2 (List.mem_cons_of_mem _ h2)
      by_cases h1 : (r0.compressed || !(fsExists fs r0.file_path)) = true
      · rw [compressLoop_cons_skip gz (fun _ => false) pd cutoff id0 r0 rest dl fs
          cnt saved tr h1]
        exact ih dl fs cnt saved tr id r i he hnd.2 hpw.2 hgz' hdl hcomp hfi hexp
      · have h1' : (r0.compressed || !(fsExists fs r0.file_path)) = false := by
          simpa using h1
        by_cases h2 : pd r0.download_date < cutoff
        · rw [compressLoop_cons_main gz (fun _ => false) pd cutoff id0 r0 rest dl fs
            cnt saved tr h1' h2 rfl]
          have hpne : r.file_path ≠ r0.file_path := Ne.symm (hpw.1 (id, r) he)
          have hgne : r.file_path ≠ r0.file_path ++ ".gz" :=
            Ne.symm (hgz (id0, r0) (List.mem_cons_self _ _) (id, r)
              (List.mem_cons_of_mem _ he))
          refine ih _ _ _ _ _ id r i he hnd.2 hpw.2 hgz' ?_ hcomp ?_ hexp
          · rw [lookup_setKey_ne dl _ hne_id]
            exact hdl
          · show (fsRemove (fsWrite fs (r0.file_path ++ ".gz")
              (gzOutput gz fs r0.file_path)) r0.file_path).lookup r.file_path = some i
            rw [lookup_fsRemove_ne _ hpne, lookup_fsWrite_ne _ _ hgne]
            exact hfi
        · rw [compressLoop_cons_notexp gz (fun _ => false) pd cutoff id0 r0 rest dl
            fs cnt saved tr h1' h2]
          exact ih dl fs cnt saved tr id r i he hnd.2 hpw.2 hgz' hdl hcomp hfi hexp

theorem compressOldFiles_downloads (gz : FileInfo → FileInfo)
    (gzFail : String → Bool) (pd : String → Int) (nowT : Int) (nowS : String)
    (d : Int) (td : TrackingData) (fs : FS) (ps : PState) :
    (compressOldFiles gz gzFail pd nowT nowS d td fs ps).1.downloads =
      (compressLoop gz gzFail pd (nowT - d * secPerDay)
        td.downloads td.downloads fs 0 0 []).1 := by
  simp only [compressOldFiles]
  split <;> rfl

theorem compressOldFiles_fs (gz : FileInfo → FileInfo)
    (gzFail : String → Bool) (pd : String → Int) (nowT : Int) (nowS : String)
    (d : Int) (td : TrackingData) (fs : FS) (ps : PState) :
    (compressOldFiles gz gzFail pd nowT nowS d td fs ps).2.1 =
      (compressLoop gz gzFail pd (nowT - d * secPerDay)
        td.downloads td.downloads fs 0 0 []).2.1 := by
  simp only [compressOldFiles]
  split <;> rfl

theorem compressOldFiles_trace (gz : FileInfo → FileInfo)
    (gzFail : String → Bool) (pd : String → Int) (nowT : Int) (nowS : String)
    (d : Int) (td : TrackingData) (fs : FS) (ps : PState) :
    (compressOldFiles gz gzFail pd nowT nowS d td fs ps).2.2.2.2.2 =
      (compressLoop gz gzFail pd (nowT - d * secPerDay)
        td.downloads td.downloads fs 0 0 []).2.2.2.2.1 := by
  simp only [compressOldFiles]
  split <;> rfl

/-- C5: for every record eligible for compression (not compressed, file
present with info `i`, download date older than the cutoff), when tracked
paths are pairwise distinct, no tracked path is another's path plus `.gz`,
and the gzip writes succeed: after `compress_old_files(ageDays)` the record
is marked compressed, its `file_path` is the original path with `.gz`
appended, its `file_size` is the compressed output's size, the original
path no longer exists, and the new path holds the compressed output;
moreover, under every gzip-failure pattern, no execution removes an
original file before its compressed output has been produced (every
`removed p` event in the trace is preceded by a `wrote (p ++ ".gz")`). -/
theorem compress_old_files_correct (gz : FileInfo → FileInfo) (pd : String → Int)
    (nowT : Int) (nowS : String) (ageDays : Int)
    (td : TrackingData) (fs : FS) (ps : PState)
    (id : String) (r : DownloadRecord) (i : FileInfo)
    (hnd : (td.downloads.map Prod.fst).Nodup)
    (hpw : td.downloads.Pairwise (fun x y => x.2.file_path ≠ y.2.file_path))
    (hgz : ∀ e1 ∈ td.downloads, ∀ e2 ∈ td.downloads,
      e1.2.file_path ++ ".gz" ≠ e2.2.file_path)
    (hmem : (id, r) ∈ td.downloads)
    (hcomp : r.compressed = false)
    (hfi : fsInfo fs r.file_path = some i)
    (hexp : pd r.download_date < nowT - ageDays * secPerDay) :
    ((compressOldFiles gz (fun _ => false) pd nowT nowS ageDays td fs
        ps).1.downloads.lookup id =
        some { r with
          file_path := r.file_path ++ ".gz",
          compressed := true,
          file_size := (gz i).size } ∧
      fsExists (compressOldFiles gz (fun _ => false) pd nowT nowS ageDays td fs
        ps).2.1 r.file_path = false ∧
      fsInfo (compressOldFiles gz (fun _ => false) pd nowT nowS ageDays td fs
        ps).2.1 (r.file_path ++ ".gz") = some (gz i)) ∧
    ∀ gzFail, removeSafe
      (compressOldFiles gz gzFail pd nowT nowS ageDays td fs ps).2.2.2.2.2 := by
  constructor
  · have hdl : (td.downloads.lookup id).isSome = true := by
      rw [lookup_of_mem_nodup hnd hmem]
      rfl
    obtain ⟨ha, hb, hc⟩ := compressLoop_eligible gz pd (nowT - ageDays * secPerDay)
      td.downloads td.downloads fs 0 0 [] id r i hmem hnd hpw hgz hdl hcomp hfi hexp
    refine ⟨?_, ?_, ?_⟩
    · rw [compressOldFiles_downloads]
      exact ha
    · rw [compressOldFiles_fs]
      exact hb
    · rw [compressOldFiles_fs]
      exact hc
  · intro gzFail
    rw [compressOldFiles_trace]
    exact compressLoop_trace_safe gz gzFail pd (nowT - ageDays * secPerDay)
      td.downloads td.downloads fs 0 0 [] removeSafe_nil

/-- C5 witness record: uncompressed, expired, with a 100-byte file. -/
def c5rec : DownloadRecord :=
  { edicto_id := "e1", filename := "f1", download_date := "d", file_size := 100,
    file_path := "p1" }

/-- C5 witness store. -/
def c5td : TrackingData :=
  { version := "1.0", created := none, last_updated := "t",
    downloads := [("e1", c5rec)],
    statistics := { total_downloads := 1, total_size_mb := 0,
                    last_cleanup := none, last_compression := none } }

/-- C5 witness filesystem. -/
def c5fs : FS := [("p1", { size := 100, digest := "h" })]

/-- C5 witness persistence state. -/
def c5ps : PState :=
  { tracking := none, backups := [], corruptBackups := [], tmp := none,
    backupDirExists := true }

/-- C5 witness compression function. -/
def c5gz (i : FileInfo) : FileInfo := { size := i.size / 2, digest := "z" }

/-- Witness for `compress_old_files_correct` at a concrete store. -/
theorem compress_old_files_correct_witness :
    ((compressOldFiles c5gz (fun _ => false) (fun s => (s.length : Int)) 200 "now" 0
        c5td c5fs c5ps).1.downloads.lookup "e1" =
        some { c5rec with
          file_path := c5rec.file_path ++ ".gz",
          compressed := true,
          file_size := (c5gz { size := 100, digest := "h" }).size } ∧
      fsExists (compressOldFiles c5gz (fun _ => false) (fun s => (s.length : Int))
        200 "now" 0 c5td c5fs c5ps).2.1 c5rec.file_path = false ∧
      fsInfo (compressOldFiles c5gz (fun _ => false) (fun s => (s.length : Int))
        200 "now" 0 c5td c5fs c5ps).2.1 (c5rec.file_path ++ ".gz") =
        some (c5gz { size := 100, digest := "h" })) ∧
    ∀ gzFail, removeSafe
      (compressOldFiles c5gz gzFail (fun s => (s.length : Int)) 200 "now" 0
        c5td c5fs c5ps).2.2.2.2.2 :=
  compress_old_files_correct c5gz (fun s => (s.length : Int)) 200 "now" 0
    c5td c5fs c5ps "e1" c5rec { size := 100, digest := "h" }
    (by decide) (by decide) (by decide) (by decide) rfl rfl (by decide)

/-- C10: `verify_files` is read-only — the in-memory tracking data and the
filesystem come out of the verification pass exactly as they went in; the
pass only reads tracked files to recompute checksums. -/
theorem verify_files_readonly (td : TrackingData) (fs : FS) :
    (verifyFiles td fs).1 = td ∧ (verifyFiles td fs).2.1 = fs := by
  unfold verifyFiles
  rw [verifyLoop_eq]
  exact ⟨rfl, rfl⟩

/-- Record used by the C6 refutation: compressed, carrying a checksum, but
with a file path that does not end in `.gz`. -/
def c6rec : DownloadRecord :=
  { edicto_id := "e1", filename := "a.pdf", download_date := "d",
    file_size := 5, file_path := "a.pdf", checksum := some "h",
    compressed := true }

/-- Tracking data used by the C6 refutation. -/
def c6td : TrackingData :=
  { version := "1.0", created := none, last_updated := "t",
    downloads := [("e1", c6rec)],
    statistics := { total_downloads := 1, total_size_mb := 0,
                    last_cleanup := none, last_compression := none } }

/-- C6 (counterexample): a compressed record that has a checksum is not
always skipped — the source only skips when the path also ends in `.gz`
(line 513), so this compressed record whose path is `a.pdf` is checksum
checked and classified corrupted, contradicting the claim that a compressed
record with a checksum is never classified corrupted. -/
theorem verify_compressed_nongz_corrupted :
    (verifyFiles c6td [("a.pdf", { size := 5, digest := "x" })]).2.2.2 = ["e1"] ∧
    c6rec.compressed = true ∧ optTruthy c6rec.checksum = true := by
  refine ⟨?_, rfl, rfl⟩
  decide

/-- C6 (amended): `verify_files` classifies every record as follows: an id
is in the missing list exactly when its file does not exist; an id is in the
corrupted list exactly when its file exists, the record has a truthy
checksum, the record is not both compressed and `.gz`-suffixed, and the
recomputed checksum mismatches; compressed records with a checksum are
skipped (hence never corrupted) only when their path ends in `.gz`; no id is
classified both missing and corrupted. -/
theorem verify_files_classification (td : TrackingData) (fs : FS)
    (hnd : (td.downloads.map Prod.fst).Nodup) (id : String) (r : DownloadRecord)
    (hr : td.downloads.lookup id = some r) :
    (id ∈ (verifyFiles td fs).2.2.1 ↔ isMissing fs r = true) ∧
    (id ∈ (verifyFiles td fs).2.2.2 ↔ isCorrupted fs r = true) ∧
    ¬(id ∈ (verifyFiles td fs).2.2.1 ∧ id ∈ (verifyFiles td fs).2.2.2) := by
  have hm : id ∈ (verifyFiles td fs).2.2.1 ↔ isMissing fs r = true := by
    unfold verifyFiles
    rw [verifyLoop_eq]
    simpa using mem_filter_keys hnd hr (fun e => isMissing fs e.2)
  have hc : id ∈ (verifyFiles td fs).2.2.2 ↔ isCorrupted fs r = true := by
    unfold verifyFiles
    rw [verifyLoop_eq]
    simpa using mem_filter_keys hnd hr (fun e => isCorrupted fs e.2)
  refine ⟨hm, hc, ?_⟩
  rintro ⟨h1, h2⟩
  rw [hm] at h1
  rw [hc] at h2
  unfold isMissing at h1
  unfold isCorrupted at h2
  simp only [Bool.not_eq_true', Bool.and_assoc, Bool.and_eq_true] at h1 h2
  rw [h1] at h2
  simp at h2

/-- Witness for `verify_files_classification` at a concrete store. -/
theorem verify_files_classification_witness :
    (("e1" ∈ (verifyFiles c6td [("a.pdf", { size := 5, digest := "x" })]).2.2.1 ↔
        isMissing [("a.pdf", { size := 5, digest := "x" })] c6rec = true) ∧
      ("e1" ∈ (verifyFiles c6td [("a.pdf", { size := 5, digest := "x" })]).2.2.2 ↔
        isCorrupted [("a.pdf", { size := 5, digest := "x" })] c6rec = true) ∧
      ¬("e1" ∈ (verifyFiles c6td [("a.pdf", { size := 5, digest := "x" })]).2.2.1 ∧
        "e1" ∈ (verifyFiles c6td [("a.pdf", { size := 5, digest := "x" })]).2.2.2)) :=
  verify_files_classification c6td [("a.pdf", { size := 5, digest := "x" })]
    (by decide) "e1" c6rec (by decide)

/-- Witness for `save_failure_safe` at a concrete failing save. -/
theorem save_failure_safe_witness :
    (saveTrackingData true false "t1" c8td c8st).1 = false ∧
    (saveTrackingData true false "t1" c8td c8st).2.2.tmp = none ∧
    (saveTrackingData true false "t1" c8td c8st).2.2.tracking = c8st.tracking ∧
    (saveTrackingData true false "t1" c8td c8st).2.1 =
      { c8td with last_updated := "t1" } :=
  save_failure_safe true false "t1" c8td c8st (Or.inl rfl)

end Tracker
